import Mathlib

/-!
# Verification of the xodr-editor geometry core

A shallow embedding, over exact rationals, of the numerical core of the
xodr-editor repository:

* `src/xodr/spline.js` — `Poly3` and `CubicSpline` (piecewise cubic algebra);
* `src/xodr/geometry.js` — the curve samplers for line / arc / spiral /
  paramPoly3 primitives and the polygon assembly helpers;
* `src/xodr/opendrive.js` — the document parser and `laneWidthAt`;
* `src/index.js` — the per-track lane-run builder;
* `src/editor.js` — the axis corner-rounding algorithm and the
  export / re-ingest of editable axes.

JavaScript numbers are modelled as `ℚ` (exact arithmetic, no rounding).
Transcendental library functions (`Math.cos`, `Math.sin`, `Math.atan2`,
`Math.sqrt`, `Math.acos`, `Math.tan`, `Math.PI`, `Math.pow (·, 1.5)`) are
passed in as explicit function parameters ("oracles"), so every definition
stays computable and every theorem quantifies over the oracle unless it
needs a specific property of it (for example `cos 0 = 1`).
-/

namespace XodrSpline

/-- The `1e-12` slack used by `CubicSpline.get_poly` (src/xodr/spline.js line 40). -/
def tol : ℚ := 1 / 10 ^ 12

/-- `Poly3` from src/xodr/spline.js: the cubic `a + b·ds + c·ds² + d·ds³`. -/
structure Poly3 where
  a : ℚ
  b : ℚ
  c : ℚ
  d : ℚ
deriving DecidableEq, Repr

namespace Poly3

/-- `Poly3.value` (spline.js line 7). -/
def value (p : Poly3) (ds : ℚ) : ℚ := p.a + p.b * ds + p.c * ds * ds + p.d * ds * ds * ds

/-- `Poly3.deriv` (spline.js line 8). -/
def deriv (p : Poly3) (ds : ℚ) : ℚ := p.b + 2 * p.c * ds + 3 * p.d * ds * ds

/-- `Poly3.deriv2` (spline.js line 9). -/
def deriv2 (p : Poly3) (ds : ℚ) : ℚ := 2 * p.c + 6 * p.d * ds

/-- `Poly3.deriv3` (spline.js line 10). -/
def deriv3 (p : Poly3) : ℚ := 6 * p.d

/-- `Poly3.rebase` (spline.js lines 11-17): Taylor shift by `delta`. -/
def rebase (p : Poly3) (delta : ℚ) : Poly3 :=
  ⟨p.value delta, p.deriv delta, p.deriv2 delta / 2, p.deriv3 / 6⟩

/-- `Poly3.add` (spline.js line 18). -/
def add (p q : Poly3) : Poly3 := ⟨p.a + q.a, p.b + q.b, p.c + q.c, p.d + q.d⟩

/-- `Poly3.negate` (spline.js line 19). -/
def negate (p : Poly3) : Poly3 := ⟨-p.a, -p.b, -p.c, -p.d⟩

/-- Rebasing is exact on cubics: `(p.rebase δ).value u = p.value (δ + u)`. -/
theorem rebase_value (p : Poly3) (delta u : ℚ) :
    (p.rebase delta).value u = p.value (delta + u) := by
  simp only [rebase, value, deriv, deriv2, deriv3]
  ring

/-- Coefficientwise addition is pointwise addition. -/
theorem add_value (p q : Poly3) (u : ℚ) : (p.add q).value u = p.value u + q.value u := by
  simp only [add, value]; ring

end Poly3

/-- One spline segment `{s0, poly}` (spline.js line 23). -/
structure Seg where
  s0 : ℚ
  poly : Poly3
deriving DecidableEq, Repr

/-- `CubicSpline` (spline.js lines 22-75): an ordered list of segments. -/
structure CubicSpline where
  seg : List Seg
deriving DecidableEq, Repr

/-- The candidate-selection loop of `get_poly` (spline.js lines 38-41):
walk the segments in order, keeping the last one whose `s0` is at most
`s + 1e-12`, stopping at the first failure. -/
def pickSeg (s : ℚ) : List Seg → Seg → Seg
  | [], cand => cand
  | sg :: rest, cand => if sg.s0 ≤ s + tol then pickSeg s rest sg else cand

namespace CubicSpline

/-- `CubicSpline.get_poly` (spline.js lines 36-44).  On an empty spline it
returns a fresh zero segment at `s`; otherwise the selection loop runs with
the first segment as the initial candidate, and the `extendStart` flag
chooses the first segment when nothing matched. -/
def get_poly (cs : CubicSpline) (s : ℚ) (extendStart : Bool) : Seg :=
  match cs.seg with
  | [] => ⟨s, ⟨0, 0, 0, 0⟩⟩
  | h :: rest =>
    let cand := pickSeg s (h :: rest) h
    if cand.s0 ≤ s + tol then cand else if extendStart then h else cand

/-- `CubicSpline.get` (spline.js lines 45-49). -/
def get (cs : CubicSpline) (s : ℚ) (deflt : ℚ) : ℚ :=
  match cs.seg with
  | [] => deflt
  | _ :: _ =>
    let sg := cs.get_poly s true
    sg.poly.value (s - sg.s0)

/-- The knot set of a spline: the list of segment start positions. -/
def knots (cs : CubicSpline) : List ℚ := cs.seg.map Seg.s0

/-- `CubicSpline.add` (spline.js lines 55-74): merge the two knot sets
(a JS `Set` holds each knot once; the merged ticks are then sorted
numerically — modelled by `dedup` followed by insertion sort, which yields
the same sorted duplicate-free list), and at each merged knot rebase the
active polynomial of each operand to that knot and sum coefficientwise.
`addSegment`'s re-sorting is the identity here because the ticks are
already emitted in ascending order. -/
def add (A B : CubicSpline) : CubicSpline :=
  let ticks := ((A.knots ++ B.knots).dedup).insertionSort (· ≤ ·)
  ⟨ticks.map (fun s0 =>
    let aP := A.get_poly s0 true
    let bP := B.get_poly s0 true
    let pA := aP.poly.rebase (s0 - aP.s0)
    let pB := bP.poly.rebase (s0 - bP.s0)
    ⟨s0, pA.add pB⟩)⟩

end CubicSpline

end XodrSpline

namespace XodrSpline

theorem tol_nonneg : (0 : ℚ) ≤ tol := by norm_num [tol]

/-- The summed segment that `CubicSpline.add` builds at merged knot `s0`
(spline.js lines 63-71). -/
def sumSegAt (A B : CubicSpline) (s0 : ℚ) : Seg :=
  let aP := A.get_poly s0 true
  let bP := B.get_poly s0 true
  let pA := aP.poly.rebase (s0 - aP.s0)
  let pB := bP.poly.rebase (s0 - bP.s0)
  ⟨s0, pA.add pB⟩

/-- The merged, sorted, duplicate-free knot list of `CubicSpline.add`
(spline.js lines 57-60). -/
def mergedTicks (A B : CubicSpline) : List ℚ :=
  ((A.knots ++ B.knots).dedup).insertionSort (· ≤ ·)

theorem add_seg_eq (A B : CubicSpline) :
    (A.add B).seg = (mergedTicks A B).map (sumSegAt A B) := rfl

theorem mem_mergedTicks {A B : CubicSpline} {a : ℚ} :
    a ∈ mergedTicks A B ↔ a ∈ A.knots ++ B.knots := by
  simp [mergedTicks, List.mem_insertionSort, List.mem_dedup]

theorem mergedTicks_sorted (A B : CubicSpline) :
    (mergedTicks A B).Pairwise (· ≤ ·) :=
  List.sorted_insertionSort _ _

theorem mergedTicks_nodup (A B : CubicSpline) : (mergedTicks A B).Nodup :=
  (List.perm_insertionSort _ _).nodup_iff.mpr ((A.knots ++ B.knots).nodup_dedup)

theorem pairwise_lt_of_sorted_nodup :
    ∀ (l : List ℚ), l.Pairwise (· ≤ ·) → l.Nodup → l.Pairwise (· < ·)
  | [], _, _ => List.Pairwise.nil
  | a :: t, h1, h2 => by
    rcases List.pairwise_cons.mp h1 with ⟨ha1, ht1⟩
    rcases List.pairwise_cons.mp h2 with ⟨ha2, ht2⟩
    exact List.pairwise_cons.mpr
      ⟨fun b hb => lt_of_le_of_ne (ha1 b hb) (ha2 b hb),
       pairwise_lt_of_sorted_nodup t ht1 ht2⟩

theorem mergedTicks_strict (A B : CubicSpline) :
    (mergedTicks A B).Pairwise (· < ·) :=
  pairwise_lt_of_sorted_nodup _ (mergedTicks_sorted A B) (mergedTicks_nodup A B)

theorem getLastD_cons {α : Type*} :
    ∀ (l : List α) (a c : α), ((a :: l).getLast?).getD c = (l.getLast?).getD a
  | [], _, _ => rfl
  | b :: t, a, c => by
    rw [List.getLast?_cons_cons, getLastD_cons t b c, ← getLastD_cons t b a]

theorem le_getLast_of_sorted :
    ∀ (l : List ℚ), l.Pairwise (· ≤ ·) → ∀ x ∈ l, ∀ (hne : l ≠ []), x ≤ l.getLast hne
  | [], _, x, hx, hne => absurd rfl hne
  | [a], _, x, hx, _ => by simp_all
  | a :: b :: t, hp, x, hx, _ => by
    rcases List.pairwise_cons.mp hp with ⟨ha, ht⟩
    rw [List.getLast_cons_cons]
    rcases List.mem_cons.mp hx with rfl | hx'
    · exact le_trans (ha _ (List.mem_cons_self _ _))
        (le_getLast_of_sorted (b :: t) ht b (List.mem_cons_self _ _) (by simp))
    · exact le_getLast_of_sorted (b :: t) ht x hx' (by simp)

theorem head_s0_le_of_pairwise {h : Seg} {rest : List Seg}
    (hp : (h :: rest).Pairwise (fun u v => u.s0 < v.s0)) :
    ∀ sg ∈ h :: rest, h.s0 ≤ sg.s0 := by
  intro sg hsg
  rcases List.mem_cons.mp hsg with rfl | hsg'
  · exact le_refl _
  · exact le_of_lt ((List.pairwise_cons.mp hp).1 sg hsg')

/-- The selection loop of `get_poly` on a (weakly) sorted segment list picks
the last segment whose knot is within the tolerance of the query, falling
back to the initial candidate. -/
theorem pickSeg_eq (s : ℚ) :
    ∀ (L : List Seg) (cand : Seg), L.Pairwise (fun u v => u.s0 ≤ v.s0) →
      pickSeg s L cand =
        ((L.filter (fun sg => sg.s0 ≤ s + tol)).getLast?).getD cand
  | [], cand, _ => rfl
  | sg :: rest, cand, hp => by
    rcases List.pairwise_cons.mp hp with ⟨hhead, hrest⟩
    by_cases hle : sg.s0 ≤ s + tol
    · rw [pickSeg, if_pos hle, pickSeg_eq s rest sg hrest,
        List.filter_cons_of_pos (by simpa using hle), getLastD_cons]
    · rw [pickSeg, if_neg hle, List.filter_cons_of_neg (by simpa using hle)]
      have hnil : rest.filter (fun sg => sg.s0 ≤ s + tol) = [] := by
        rw [List.filter_eq_nil_iff]
        intro a ha
        simp only [decide_eq_true_eq]
        intro hca
        exact hle (le_trans (hhead a ha) hca)
      rw [hnil]
      rfl

theorem get_poly_nil (cs : CubicSpline) (hseg : cs.seg = []) (s : ℚ) (ext : Bool) :
    cs.get_poly s ext = ⟨s, ⟨0, 0, 0, 0⟩⟩ := by
  obtain ⟨l⟩ := cs
  simp only at hseg
  subst hseg
  rfl

/-- On a nonempty sorted spline, `get_poly` (with either `extendStart` value)
returns the last segment whose knot is `≤ s + 1e-12`, or the first segment
when no knot qualifies. -/
theorem get_poly_eq (cs : CubicSpline) (s : ℚ) (ext : Bool) (h : Seg) (rest : List Seg)
    (hseg : cs.seg = h :: rest)
    (hp : cs.seg.Pairwise (fun u v => u.s0 ≤ v.s0)) :
    cs.get_poly s ext =
      ((cs.seg.filter (fun sg => sg.s0 ≤ s + tol)).getLast?).getD h := by
  obtain ⟨l⟩ := cs
  simp only at hseg hp ⊢
  subst hseg
  simp only [CubicSpline.get_poly]
  rw [pickSeg_eq s (h :: rest) h hp]
  rcases hfe : (h :: rest).filter (fun sg => sg.s0 ≤ s + tol) with _ | ⟨x, xs⟩
  · rw [hfe]
    have hhf : ¬ (h.s0 ≤ s + tol) := by
      intro hc
      have : h ∈ (h :: rest).filter (fun sg => sg.s0 ≤ s + tol) :=
        List.mem_filter.mpr ⟨List.mem_cons_self _ _, by simpa using hc⟩
      rw [hfe] at this
      exact absurd this (List.not_mem_nil _)
    simp only [List.getLast?_nil, Option.getD_none]
    rw [if_neg hhf]
    cases ext <;> rfl
  · rw [hfe]
    have hne : (x :: xs) ≠ [] := by simp
    obtain ⟨last, hlast⟩ := Option.isSome_iff_exists.mp (List.getLast?_isSome.mpr hne)
    have hmem : last ∈ x :: xs := by
      have h1 := List.getLast?_eq_getLast (x :: xs) hne
      rw [hlast] at h1
      obtain rfl : last = (x :: xs).getLast hne := Option.some_inj.mp h1
      exact List.getLast_mem hne
    have hlmem : last ∈ (h :: rest).filter (fun sg => sg.s0 ≤ s + tol) := hfe ▸ hmem
    have hlast_le : last.s0 ≤ s + tol := by
      simpa using (List.mem_filter.mp hlmem).2
    rw [hlast, Option.getD_some, if_pos hlast_le]

theorem get_nil (cs : CubicSpline) (hseg : cs.seg = []) (s d : ℚ) : cs.get s d = d := by
  obtain ⟨l⟩ := cs
  simp only at hseg
  subst hseg
  rfl

theorem get_of_ne_nil (cs : CubicSpline) (s d : ℚ) (hne : cs.seg ≠ []) :
    cs.get s d = (cs.get_poly s true).poly.value (s - (cs.get_poly s true).s0) := by
  obtain ⟨l⟩ := cs
  cases l with
  | nil => exact absurd rfl hne
  | cons a t => rfl

/-- Knot-selection stability: querying a nonempty sorted spline at `t` and at
the merged-knot representative `m` of `t` selects the same segment, provided
all knots that occur are pairwise separated by more than the `1e-12`
tolerance. -/
theorem get_poly_stable (C : CubicSpline) (h : Seg) (rest : List Seg)
    (hseg : C.seg = h :: rest)
    (hC : C.seg.Pairwise (fun u v => u.s0 < v.s0))
    (ticks : List ℚ)
    (hsub : ∀ a ∈ C.knots, a ∈ ticks)
    (hsep : ∀ u ∈ ticks, ∀ v ∈ ticks, u ≠ v → tol < |u - v|)
    (t m : ℚ)
    (hm1 : m ∈ ticks)
    (hm2 : ∀ a ∈ ticks, a ≤ t + tol → a ≤ m)
    (hm3 : (∃ a ∈ ticks, a ≤ t + tol) → m ≤ t + tol)
    (hm4 : (∀ a ∈ ticks, ¬ a ≤ t + tol) → ∀ a ∈ ticks, m ≤ a) :
    C.get_poly m true = C.get_poly t true := by
  have hCle : C.seg.Pairwise (fun u v => u.s0 ≤ v.s0) := hC.imp le_of_lt
  rw [get_poly_eq C m true h rest hseg hCle, get_poly_eq C t true h rest hseg hCle]
  by_cases hex : ∃ a ∈ ticks, a ≤ t + tol
  · have hmle := hm3 hex
    have hcong : C.seg.filter (fun sg => sg.s0 ≤ m + tol)
        = C.seg.filter (fun sg => sg.s0 ≤ t + tol) := by
      apply List.filter_congr
      intro sg hsg
      have hasg : sg.s0 ∈ ticks := hsub _ (List.mem_map_of_mem Seg.s0 hsg)
      have hiff : (sg.s0 ≤ m + tol) ↔ (sg.s0 ≤ t + tol) := by
        constructor
        · intro hle
          by_contra hgt
          push_neg at hgt
          have hne : sg.s0 ≠ m := by
            intro he
            rw [he] at hgt
            exact absurd hmle (not_le.mpr hgt)
          have hs := hsep _ hasg _ hm1 hne
          have hmlt : m < sg.s0 := lt_of_le_of_lt hmle hgt
          rw [abs_of_pos (sub_pos.mpr hmlt)] at hs
          linarith
        · intro hle
          have := hm2 _ hasg hle
          have := tol_nonneg
          linarith
      exact decide_eq_decide.mpr hiff
    rw [hcong]
  · push_neg at hex
    have hmin : ∀ a ∈ ticks, m ≤ a := hm4 (fun a ha => not_le.mpr (hex a ha))
    have hft : C.seg.filter (fun sg => sg.s0 ≤ t + tol) = [] := by
      rw [List.filter_eq_nil_iff]
      intro sg hsg
      simp only [decide_eq_true_eq]
      exact not_le.mpr (hex _ (hsub _ (List.mem_map_of_mem Seg.s0 hsg)))
    rw [hft]
    have hhmem : h.s0 ∈ ticks := by
      apply hsub
      rw [CubicSpline.knots, hseg]
      exact List.mem_map_of_mem Seg.s0 (List.mem_cons_self _ _)
    by_cases hm_in : ∃ sg ∈ C.seg, sg.s0 = m
    · obtain ⟨sg0, hsg0, hsg0m⟩ := hm_in
      have hle1 : m ≤ h.s0 := hmin _ hhmem
      have hle2 : h.s0 ≤ sg0.s0 := by
        apply head_s0_le_of_pairwise (hseg ▸ hC)
        rw [← hseg]; exact hsg0
      have hhm : h.s0 = m := le_antisymm (by rw [← hsg0m]; exact hle2) hle1
      have hfm : C.seg.filter (fun sg => sg.s0 ≤ m + tol) = [h] := by
        rw [hseg, List.filter_cons_of_pos
          (by simpa using hhm ▸ (le_add_of_nonneg_right tol_nonneg))]
        have : rest.filter (fun sg => sg.s0 ≤ m + tol) = [] := by
          rw [List.filter_eq_nil_iff]
          intro sg hsg
          simp only [decide_eq_true_eq]
          have hlt : m < sg.s0 := by
            rw [← hhm]
            exact (List.pairwise_cons.mp (hseg ▸ hC)).1 sg hsg
          have hne' : sg.s0 ≠ m := ne_of_gt hlt
          have hmem' : sg.s0 ∈ ticks := by
            apply hsub
            rw [CubicSpline.knots, hseg]
            exact List.mem_map_of_mem Seg.s0 (List.mem_cons_of_mem _ hsg)
          have hs := hsep _ hmem' _ hm1 hne'
          rw [abs_of_pos (sub_pos.mpr hlt)] at hs
          intro hcon
          linarith
        rw [this]
      rw [hfm]
      rfl
    · have hfm : C.seg.filter (fun sg => sg.s0 ≤ m + tol) = [] := by
        rw [List.filter_eq_nil_iff]
        intro sg hsg
        simp only [decide_eq_true_eq]
        have hmem' : sg.s0 ∈ ticks := hsub _ (List.mem_map_of_mem Seg.s0 hsg)
        have hne' : sg.s0 ≠ m := fun he => hm_in ⟨sg, hsg, he⟩
        have hlt : m < sg.s0 := lt_of_le_of_ne (hmin _ hmem') (Ne.symm hne')
        have hs := hsep _ hmem' _ hm1 hne'
        rw [abs_of_pos (sub_pos.mpr hlt)] at hs
        intro hcon
        linarith
      rw [hfm]

end XodrSpline

namespace XodrSpline

theorem sumSegAt_s0 (A B : CubicSpline) (s0 : ℚ) : (sumSegAt A B s0).s0 = s0 := rfl

/-- Properties of the merged-knot representative selected for a query `t`:
it is the largest merged knot `≤ t + 1e-12` when one exists, and the first
merged knot otherwise. -/
theorem sel_spec (h0 : ℚ) (rest0 : List ℚ) (t : ℚ)
    (hsort : (h0 :: rest0).Pairwise (· ≤ ·)) :
    (((h0 :: rest0).filter (fun a => a ≤ t + tol)).getLast?).getD h0 ∈ (h0 :: rest0) ∧
    (∀ a ∈ h0 :: rest0, a ≤ t + tol →
      a ≤ (((h0 :: rest0).filter (fun a => a ≤ t + tol)).getLast?).getD h0) ∧
    ((∃ a ∈ h0 :: rest0, a ≤ t + tol) →
      (((h0 :: rest0).filter (fun a => a ≤ t + tol)).getLast?).getD h0 ≤ t + tol) ∧
    ((∀ a ∈ h0 :: rest0, ¬ a ≤ t + tol) →
      ∀ a ∈ h0 :: rest0,
        (((h0 :: rest0).filter (fun a => a ≤ t + tol)).getLast?).getD h0 ≤ a) := by
  have hfsub : ∀ x ∈ (h0 :: rest0).filter (fun a => a ≤ t + tol), x ∈ h0 :: rest0 :=
    fun x hx => (List.mem_filter.mp hx).1
  have hfsorted : ((h0 :: rest0).filter (fun a => a ≤ t + tol)).Pairwise (· ≤ ·) :=
    hsort.filter _
  rcases hfe : (h0 :: rest0).filter (fun a => a ≤ t + tol) with _ | ⟨x, xs⟩
  · have hnone : ∀ a ∈ h0 :: rest0, ¬ a ≤ t + tol := by
      intro a ha hle
      have : a ∈ (h0 :: rest0).filter (fun a => a ≤ t + tol) :=
        List.mem_filter.mpr ⟨ha, by simpa using hle⟩
      rw [hfe] at this
      exact absurd this (List.not_mem_nil _)
    simp only [List.getLast?_nil, Option.getD_none]
    refine ⟨List.mem_cons_self _ _, ?_, ?_, ?_⟩
    · intro a ha hle
      exact absurd hle (hnone a ha)
    · rintro ⟨a, ha, hle⟩
      exact absurd hle (hnone a ha)
    · intro _ a ha
      rcases List.mem_cons.mp ha with rfl | ha'
      · exact le_refl _
      · exact (List.pairwise_cons.mp hsort).1 a ha'
  · rw [hfe] at hfsub hfsorted
    have hne : (x :: xs) ≠ [] := by simp
    have hmeq : ((x :: xs).getLast?).getD h0 = (x :: xs).getLast hne := by
      rw [List.getLast?_eq_getLast (x :: xs) hne]
      rfl
    have hm_mem_f : (x :: xs).getLast hne ∈ x :: xs := List.getLast_mem hne
    refine ⟨?_, ?_, ?_, ?_⟩
    · rw [hmeq]
      exact hfsub _ hm_mem_f
    · intro a ha hle
      rw [hmeq]
      have haf : a ∈ (h0 :: rest0).filter (fun a => a ≤ t + tol) :=
        List.mem_filter.mpr ⟨ha, by simpa using hle⟩
      rw [hfe] at haf
      exact le_getLast_of_sorted _ hfsorted a haf hne
    · intro _
      rw [hmeq]
      have hmm : (x :: xs).getLast hne ∈ (h0 :: rest0).filter (fun a => a ≤ t + tol) := by
        rw [hfe]
        exact hm_mem_f
      simpa using (List.mem_filter.mp hmm).2
    · intro hnone
      exfalso
      have hx_mem : x ∈ (h0 :: rest0).filter (fun a => a ≤ t + tol) := by
        rw [hfe]; exact List.mem_cons_self _ _
      rcases List.mem_filter.mp hx_mem with ⟨hx1, hx2⟩
      exact hnone x hx1 (by simpa using hx2)

/-- Amended claim C1: under the class invariant (segments sorted by knot)
and provided all distinct knots of the two operands are separated by more
than the selection tolerance `1e-12`, `CubicSpline.add` is pointwise exact:
`(A.add B).get t = A.get t + B.get t` for every `t` — not only at knots. -/
theorem claim_C1_add_pointwise (A B : CubicSpline)
    (hA : A.seg.Pairwise (fun u v => u.s0 < v.s0))
    (hB : B.seg.Pairwise (fun u v => u.s0 < v.s0))
    (hsep : ∀ u ∈ A.knots ++ B.knots, ∀ v ∈ A.knots ++ B.knots, u ≠ v → tol < |u - v|)
    (t : ℚ) :
    (A.add B).get t 0 = A.get t 0 + B.get t 0 := by
  have hsep' : ∀ u ∈ mergedTicks A B, ∀ v ∈ mergedTicks A B, u ≠ v → tol < |u - v| :=
    fun u hu v hv => hsep u (mem_mergedTicks.mp hu) v (mem_mergedTicks.mp hv)
  rcases htk : mergedTicks A B with _ | ⟨h0, rest0⟩
  · have hknil : A.knots ++ B.knots = [] := by
      rw [List.eq_nil_iff_forall_not_mem]
      intro a ha
      have : a ∈ mergedTicks A B := mem_mergedTicks.mpr ha
      rw [htk] at this
      exact absurd this (List.not_mem_nil _)
    rcases List.append_eq_nil.mp hknil with ⟨hka, hkb⟩
    have hAe : A.seg = [] := List.map_eq_nil_iff.mp hka
    have hBe : B.seg = [] := List.map_eq_nil_iff.mp hkb
    have hSe : (A.add B).seg = [] := by rw [add_seg_eq, htk]; rfl
    rw [get_nil _ hSe, get_nil _ hAe, get_nil _ hBe]
    norm_num
  · obtain ⟨hm1, hm2, hm3, hm4⟩ := sel_spec h0 rest0 t (htk ▸ mergedTicks_sorted A B)
    set m : ℚ := (((h0 :: rest0).filter (fun a => a ≤ t + tol)).getLast?).getD h0 with hmdef
    have hsegsum : (A.add B).seg = (h0 :: rest0).map (sumSegAt A B) := by
      rw [add_seg_eq, htk]
    have hsum_sorted : (A.add B).seg.Pairwise (fun u v => u.s0 ≤ v.s0) := by
      rw [hsegsum]
      exact List.pairwise_map.mpr ((htk ▸ mergedTicks_sorted A B).imp (fun h => h))
    have hgp := get_poly_eq (A.add B) t true (sumSegAt A B h0) (rest0.map (sumSegAt A B))
      (by rw [hsegsum]; rfl) hsum_sorted
    have hfm : (A.add B).seg.filter (fun sg => sg.s0 ≤ t + tol)
        = ((h0 :: rest0).filter (fun a => a ≤ t + tol)).map (sumSegAt A B) := by
      rw [hsegsum, List.filter_map]
      rfl
    have hsel : (A.add B).get_poly t true = sumSegAt A B m := by
      rw [hgp, hfm, List.getLast?_map]
      rw [hmdef]
      cases ((h0 :: rest0).filter (fun a => a ≤ t + tol)).getLast? <;> rfl
    have hget : (A.add B).get t 0
        = (sumSegAt A B m).poly.value (t - (sumSegAt A B m).s0) := by
      rw [get_of_ne_nil _ _ _ (by rw [hsegsum]; simp), hsel]
    rw [hget, sumSegAt_s0]
    have harg : ∀ x : ℚ, m - x + (t - m) = t - x := fun x => by ring
    have hval : (sumSegAt A B m).poly.value (t - m)
        = (A.get_poly m true).poly.value (t - (A.get_poly m true).s0)
          + (B.get_poly m true).poly.value (t - (B.get_poly m true).s0) := by
      simp only [sumSegAt]
      rw [Poly3.add_value, Poly3.rebase_value, Poly3.rebase_value, harg, harg]
    rw [hval]
    have hApart : (A.get_poly m true).poly.value (t - (A.get_poly m true).s0)
        = A.get t 0 := by
      rcases hAseg : A.seg with _ | ⟨hA0, restA⟩
      · rw [get_nil _ hAseg, get_poly_nil _ hAseg]
        simp [Poly3.value]
      · rw [get_of_ne_nil _ _ _ (by rw [hAseg]; simp),
          get_poly_stable A hA0 restA hAseg hA (h0 :: rest0)
            (fun a ha => htk ▸ mem_mergedTicks.mpr (List.mem_append_left _ ha))
            (htk ▸ hsep') t m hm1 hm2 hm3 hm4]
    have hBpart : (B.get_poly m true).poly.value (t - (B.get_poly m true).s0)
        = B.get t 0 := by
      rcases hBseg : B.seg with _ | ⟨hB0, restB⟩
      · rw [get_nil _ hBseg, get_poly_nil _ hBseg]
        simp [Poly3.value]
      · rw [get_of_ne_nil _ _ _ (by rw [hBseg]; simp),
          get_poly_stable B hB0 restB hBseg hB (h0 :: rest0)
            (fun a ha => htk ▸ mem_mergedTicks.mpr (List.mem_append_right _ ha))
            (htk ▸ hsep') t m hm1 hm2 hm3 hm4]
    rw [hApart, hBpart]

end XodrSpline

namespace XodrSpline

/-- Spline A of the C1 counterexample: knots at `0` and `2e-12`
(closer together than the `1e-12` selection tolerance). -/
def cexA : CubicSpline := ⟨[⟨0, ⟨0, 0, 0, 0⟩⟩, ⟨2 * tol, ⟨1, 0, 0, 0⟩⟩]⟩

/-- Spline B of the C1 counterexample: a single knot at `1e-12`. -/
def cexB : CubicSpline := ⟨[⟨tol, ⟨0, 0, 0, 0⟩⟩]⟩

/-- Claim C1 as stated is false for arbitrary knot sets: with knots `0` and
`2e-12` in A and `1e-12` in B (all within the `1e-12` tolerance of each
other), the sum spline evaluates to `1` at `t = 0` while the pointwise sum
is `0`. -/
theorem claim_C1_counterexample :
    (cexA.add cexB).get 0 0 ≠ cexA.get 0 0 + cexB.get 0 0 := by
  have hl : cexA.knots ++ cexB.knots = [0, 2 * tol, tol] := by
    norm_num [cexA, cexB, CubicSpline.knots]
  have hd : ((cexA.knots ++ cexB.knots).dedup) = [0, 2 * tol, tol] := by
    rw [hl, List.dedup_eq_self]
    norm_num [tol]
  norm_num [CubicSpline.add, CubicSpline.get, CubicSpline.get_poly, pickSeg, hd,
    cexA, cexB, CubicSpline.knots, List.insertionSort, List.orderedInsert,
    Poly3.rebase, Poly3.add, Poly3.value, Poly3.deriv, Poly3.deriv2, Poly3.deriv3,
    tol]

/-- Example splines for the C1 witness: knots 0, 5 (A) and 2 (B), well
separated. -/
def wexA : CubicSpline := ⟨[⟨0, ⟨1, 2, 3, 4⟩⟩, ⟨5, ⟨2, -1, 0, 1⟩⟩]⟩

/-- Second witness spline for C1. -/
def wexB : CubicSpline := ⟨[⟨2, ⟨1, 1, 0, 0⟩⟩]⟩

/-- Witness for the amended C1 theorem at a concrete, well-separated input. -/
theorem claim_C1_witness :
    (wexA.seg.Pairwise (fun u v => u.s0 < v.s0)) ∧
    (wexB.seg.Pairwise (fun u v => u.s0 < v.s0)) ∧
    (∀ u ∈ wexA.knots ++ wexB.knots, ∀ v ∈ wexA.knots ++ wexB.knots,
      u ≠ v → tol < |u - v|) ∧
    (wexA.add wexB).get 3 0 = wexA.get 3 0 + wexB.get 3 0 :=
  ⟨by norm_num [wexA, List.pairwise_cons],
   by norm_num [wexB, List.pairwise_cons],
   by norm_num [wexA, wexB, CubicSpline.knots, tol],
   claim_C1_add_pointwise wexA wexB
     (by norm_num [wexA, List.pairwise_cons])
     (by norm_num [wexB, List.pairwise_cons])
     (by norm_num [wexA, wexB, CubicSpline.knots, tol]) 3⟩

end XodrSpline

namespace XodrGeom

/-- Oracle bundle for the transcendental `Math` functions used by
geometry.js and editor.js.  `pow15` stands for `Math.pow (·, 1.5)`. -/
structure TrigOracle where
  cos : ℚ → ℚ
  sin : ℚ → ℚ
  atan2 : ℚ → ℚ → ℚ
  sqrt : ℚ → ℚ
  pow15 : ℚ → ℚ

/-- A sample `[x, y, heading, s]` as produced by the samplers. -/
structure Sample where
  x : ℚ
  y : ℚ
  th : ℚ
  s : ℚ
deriving DecidableEq, Repr

/-- The geometry-primitive variants recognised by the samplers
(geometry.js lines 30-112): `line`, `arc`, `spiral`, `poly3` (ParamPoly3)
and the unknown fallback. -/
inductive GeomKind
  | line
  | arc (curvature : ℚ)
  | spiral (curvStart curvEnd : ℚ)
  | poly3 (aU bU cU dU aV bV cV dV : ℚ)
  | unknown
deriving DecidableEq, Repr

/-- A planView geometry record `(s, x, y, hdg, length)` plus its variant. -/
structure Geom where
  s : ℚ
  x : ℚ
  y : ℚ
  hdg : ℚ
  length : ℚ
  kind : GeomKind
deriving DecidableEq, Repr

/-- Arc-length tag of the last sample of a list (`pts[pts.length-1][3]`),
defaulting to `0` on the empty list. -/
def lastS (l : List Sample) : ℚ := ((l.getLast?).map Sample.s).getD 0

/-- `sampleSegment` (geometry.js lines 22-114).  `n = max(1, ceil(length/step))`
and `ds = length/n`; each branch emits `n+1` (line/arc/poly3) or `1+n`
(spiral) samples.  Division by zero in `ℚ` yields `0`, so a non-positive
`step` degenerates to `n = 1` (the JS callers always pass a positive step). -/
def sampleSegment (O : TrigOracle) (g : Geom) (step : ℚ) : List Sample :=
  if ¬ (0 < g.length) then [] else
  let n : ℕ := (max 1 ⌈g.length / step⌉).toNat
  let ds : ℚ := g.length / n
  let lineSamples : List Sample :=
    (List.range (n + 1)).map (fun (i : ℕ) =>
      let s : ℚ := i * ds
      ⟨g.x + s * O.cos g.hdg, g.y + s * O.sin g.hdg, g.hdg, s⟩)
  match g.kind with
  | .line => lineSamples
  | .arc k =>
    if |k| < 1 / 10 ^ 12 then lineSamples
    else
      let invk := 1 / k
      (List.range (n + 1)).map (fun (i : ℕ) =>
        let s : ℚ := i * ds
        let th := g.hdg + k * s
        ⟨g.x + (O.sin th - O.sin g.hdg) * invk,
         g.y - (O.cos th - O.cos g.hdg) * invk, th, s⟩)
  | .spiral k0 k1 =>
    let L := g.length
    let dk := (k1 - k0) / L
    let start : List Sample × ℚ × ℚ := ([⟨g.x, g.y, g.hdg, 0⟩], g.x, g.y)
    let res := (List.range n).foldl (fun st j =>
      let acc := st.1
      let px := st.2.1
      let py := st.2.2
      let i : ℚ := (j : ℚ) + 1
      let s1 := (i - 1) * ds
      let s2 := i * ds
      let th1 := g.hdg + k0 * s1 + (1/2) * dk * s1 * s1
      let th2 := g.hdg + k0 * s2 + (1/2) * dk * s2 * s2
      let thm := (1/2) * (th1 + th2)
      let px' := px + ds * O.cos thm
      let py' := py + ds * O.sin thm
      (acc ++ [⟨px', py', th2, s2⟩], px', py')) start
    res.1
  | .poly3 aU bU cU dU aV bV cV dV =>
    let cosH := O.cos g.hdg
    let sinH := O.sin g.hdg
    (List.range (n + 1)).map (fun (i : ℕ) =>
      let s : ℚ := i * ds
      let u := aU + bU * s + cU * s * s + dU * s * s * s
      let v := aV + bV * s + cV * s * s + dV * s * s * s
      let du := bU + 2 * cU * s + 3 * dU * s * s
      let dv := bV + 2 * cV * s + 3 * dV * s * s
      let tx := du * cosH - dv * sinH
      let ty := du * sinH + dv * cosH
      ⟨g.x + (u * cosH - v * sinH), g.y + (u * sinH + v * cosH),
       O.atan2 ty tx, s⟩)
  | .unknown => lineSamples

/-- JS truthiness default `v || d` on numbers (`0` is falsy; the callers
never pass `NaN`/`undefined` here). -/
def orDefault (v d : ℚ) : ℚ := if v = 0 then d else v

/-- The adaptive spiral step size (geometry.js lines 141-152): largest `h`
satisfying the heading-change bound, clamped to `baseStep`, then forced into
`[0.05, ·]` after capping by the remaining length `L - s`. -/
def spiralStepH (O : TrigOracle) (k0 dk baseStep maxAngle L s : ℚ) : ℚ :=
  let a := (1/2) * |dk|
  let b := |k0 + dk * s|
  let h1 : ℚ :=
    if 1 / 10 ^ 12 < a then
      min baseStep ((-b + O.sqrt (max 0 (b * b + 4 * a * maxAngle))) / (2 * a))
    else if 1 / 10 ^ 12 < b then
      min baseStep (maxAngle / b)
    else baseStep
  max (1/20) (min h1 (L - s))

/-- One RK4 state update of the spiral sampler (geometry.js lines 154-169). -/
def spiralRK4 (O : TrigOracle) (k0 dk h s px py th : ℚ) : ℚ × ℚ × ℚ :=
  let k1t := k0 + dk * s
  let k2t := k0 + dk * (s + (1/2) * h)
  let k3t := k2t
  let k4t := k0 + dk * (s + h)
  let th2 := th + (1/2) * h * k1t
  let th3 := th + (1/2) * h * k2t
  let th4 := th + h * k3t
  (px + (h / 6) * (O.cos th + 2 * O.cos th2 + 2 * O.cos th3 + O.cos th4),
   py + (h / 6) * (O.sin th + 2 * O.sin th2 + 2 * O.sin th3 + O.sin th4),
   th + (h / 6) * (k1t + 2 * k2t + 2 * k3t + k4t))

/-- The adaptive spiral loop of `sampleSegmentAdaptive`
(geometry.js lines 140-170): choose the step from the heading-change bound,
advance the RK4 state and recurse.  Structured on a fuel counter standing
for the iteration count of the JS `while` loop; every step advances `s` by
at least `0.05`, so any fuel `> ⌈20·(L - s)⌉` runs the loop to completion. -/
def spiralAdaptiveRest (O : TrigOracle) (k0 dk baseStep maxAngle L : ℚ) :
    ℕ → ℚ → ℚ → ℚ → ℚ → List Sample
  | 0, _, _, _, _ => []
  | fuel + 1, s, px, py, th =>
    if s < L - 1 / 10 ^ 9 then
      let h := spiralStepH O k0 dk baseStep maxAngle L s
      let st := spiralRK4 O k0 dk h s px py th
      ⟨st.1, st.2.1, st.2.2, s + h⟩ ::
        spiralAdaptiveRest O k0 dk baseStep maxAngle L fuel (s + h) st.1 st.2.1 st.2.2
    else []

/-- The adaptive ParamPoly3 loop of `sampleSegmentAdaptive`
(geometry.js lines 178-203): sample at `s`, stop after pushing once
`s ≥ L`, otherwise advance by the curvature-bounded step capped at `L - s`
(so `s` never exceeds `L`).  Fuel counts loop iterations; the end-correction
afterwards makes the final arc length `L` for every fuel. -/
def poly3AdaptiveRest (O : TrigOracle)
    (aU bU cU dU aV bV cV dV x y cosH sinH baseStep maxAngle L : ℚ) :
    ℕ → ℚ → List Sample
  | 0, _ => []
  | fuel + 1, s =>
    if s < L + 1 / 10 ^ 9 then
      let u := aU + bU * s + cU * s * s + dU * s * s * s
      let v := aV + bV * s + cV * s * s + dV * s * s * s
      let du := bU + 2 * cU * s + 3 * dU * s * s
      let dv := bV + 2 * cV * s + 3 * dV * s * s
      let d2u := 2 * cU + 6 * dU * s
      let d2v := 2 * cV + 6 * dV * s
      let tx := du * cosH - dv * sinH
      let ty := du * sinH + dv * cosH
      let th := O.atan2 ty tx
      let denom := O.pow15 (tx * tx + ty * ty)
      let ax := d2u * cosH - d2v * sinH
      let ay := d2u * sinH + d2v * cosH
      let curvature := if 1 / 10 ^ 9 < denom then |(tx * ay - ty * ax) / denom| else 0
      let dsAngle := if 1 / 10 ^ 9 < curvature then maxAngle / curvature else L
      let h := min (min (max (1/5) baseStep) dsAngle) (L - s)
      let pt : Sample := ⟨x + (u * cosH - v * sinH), y + (u * sinH + v * cosH), th, s⟩
      if L ≤ s then [pt]
      else
        let s2 := s + h
        pt :: poly3AdaptiveRest O aU bU cU dU aV bV cV dV x y cosH sinH baseStep maxAngle L
          fuel (if L < s2 then L else s2)
    else []

/-- The end sample at `s = L` used by the ParamPoly3 end-correction
(geometry.js lines 204-216). -/
def poly3EndSample (O : TrigOracle)
    (aU bU cU dU aV bV cV dV x y cosH sinH L : ℚ) : Sample :=
  let u := aU + bU * L + cU * L * L + dU * L * L * L
  let v := aV + bV * L + cV * L * L + dV * L * L * L
  let du := bU + 2 * cU * L + 3 * dU * L * L
  let dv := bV + 2 * cV * L + 3 * dV * L * L
  let tx := du * cosH - dv * sinH
  let ty := du * sinH + dv * cosH
  ⟨x + (u * cosH - v * sinH), y + (u * sinH + v * cosH), O.atan2 ty tx, L⟩

/-- `sampleSegmentAdaptive` (geometry.js lines 116-221).  `fuel` bounds the
iteration count of the adaptive `while` loops (spiral and poly3); the other
branches ignore it. -/
def sampleSegmentAdaptive (O : TrigOracle) (g : Geom)
    (optsStep optsMaxAngle : ℚ) (fuel : ℕ) : List Sample :=
  let L := g.length
  if ¬ (0 < L) then [] else
  let baseStep := max (1/5) (orDefault optsStep (7/10))
  let maxAngle := max (1/200) (orDefault optsMaxAngle (3/100))
  match g.kind with
  | .line => sampleSegment O g baseStep
  | .arc k =>
    let dsAngle := if 1 / 10 ^ 12 < |k| then maxAngle / |k| else L
    let ds := min baseStep dsAngle
    sampleSegment O g ds
  | .spiral k0 k1 =>
    let dk := (k1 - k0) / L
    ⟨g.x, g.y, g.hdg, 0⟩ ::
      spiralAdaptiveRest O k0 dk baseStep maxAngle L fuel 0 g.x g.y g.hdg
  | .poly3 aU bU cU dU aV bV cV dV =>
    let cosH := O.cos g.hdg
    let sinH := O.sin g.hdg
    let pts := poly3AdaptiveRest O aU bU cU dU aV bV cV dV g.x g.y cosH sinH
      baseStep maxAngle L fuel 0
    match pts.getLast? with
    | none => [poly3EndSample O aU bU cU dU aV bV cV dV g.x g.y cosH sinH L]
    | some p =>
      if p.s < L then pts ++ [poly3EndSample O aU bU cU dU aV bV cV dV g.x g.y cosH sinH L]
      else pts
  | .unknown => sampleSegment O g baseStep

/-- `toLineString` coordinates (geometry.js lines 234-241), keeping only the
projected coordinate list. -/
def toLineString (samples : List Sample) (proj : ℚ × ℚ → ℚ × ℚ) : List (ℚ × ℚ) :=
  samples.map (fun p => proj (p.x, p.y))

/-- `toPolygon` ring (geometry.js lines 243-252): projected left boundary,
then the projected right boundary reversed, closed with the first left
point.  (JS appends `left[0]`, which is `undefined` on an empty left list;
all call sites pass nonempty lists, and `take 1` agrees with `[left[0]]`
there.) -/
def toPolygon (leftSamples rightSamples : List Sample)
    (proj : ℚ × ℚ → ℚ × ℚ) : List (ℚ × ℚ) :=
  let left := leftSamples.map (fun p => proj (p.x, p.y))
  let right := (rightSamples.map (fun p => proj (p.x, p.y))).reverse
  left ++ right ++ left.take 1

end XodrGeom

namespace XodrGeom

theorem lastS_cons_cons (a b : Sample) (l : List Sample) :
    lastS (a :: b :: l) = lastS (b :: l) := by
  simp [lastS, List.getLast?_cons_cons]

theorem lastS_concat (l : List Sample) (p : Sample) : lastS (l ++ [p]) = p.s := by
  simp [lastS, List.getLast?_concat]

theorem lastS_map_range (f : ℕ → Sample) (n : ℕ) :
    lastS ((List.range (n + 1)).map f) = (f n).s := by
  rw [List.range_succ, List.map_append]
  exact lastS_concat _ _

/-- The sample count of `max(1, ceil(L/step))` is at least one. -/
theorem one_le_nseg (L step : ℚ) : 1 ≤ (max 1 ⌈L / step⌉).toNat := by
  have h1 : (1 : ℤ) ≤ max 1 ⌈L / step⌉ := le_max_left _ _
  omega

theorem nseg_cast_ne_zero (L step : ℚ) : ((max 1 ⌈L / step⌉).toNat : ℚ) ≠ 0 := by
  have := one_le_nseg L step
  exact_mod_cast Nat.one_le_iff_ne_zero.mp this

/-- Claim C8, general part: `sampleSegment` on a `line` primitive with
positive length and positive chord target produces exactly
`ceil(length/step) + 1` evenly spaced samples: the `i`-th sample sits at
arc length `i·ds` with `ds = length / ceil(length/step)`, at position
`(x + i·ds·cos hdg, y + i·ds·sin hdg)` with heading `hdg`; the last sample's
arc length is exactly `length`. -/
theorem sampleSegment_line_spec (O : TrigOracle) (g : Geom) (step : ℚ)
    (hline : g.kind = .line) (hL : 0 < g.length) (hstep : 0 < step) :
    (sampleSegment O g step).length = ⌈g.length / step⌉.toNat + 1 ∧
    (∀ i : ℕ, i < ⌈g.length / step⌉.toNat + 1 →
      (sampleSegment O g step).getD i ⟨0, 0, 0, 0⟩ =
        ⟨g.x + (i * (g.length / ⌈g.length / step⌉.toNat)) * O.cos g.hdg,
         g.y + (i * (g.length / ⌈g.length / step⌉.toNat)) * O.sin g.hdg,
         g.hdg, i * (g.length / ⌈g.length / step⌉.toNat)⟩) ∧
    lastS (sampleSegment O g step) = g.length := by
  have hmax : max 1 ⌈g.length / step⌉ = ⌈g.length / step⌉ := by
    apply max_eq_right
    have : (0 : ℚ) < g.length / step := div_pos hL hstep
    exact Int.ceil_pos.mpr this
  have hss : sampleSegment O g step =
      (List.range (⌈g.length / step⌉.toNat + 1)).map (fun (i : ℕ) =>
        let s : ℚ := i * (g.length / ⌈g.length / step⌉.toNat)
        ⟨g.x + s * O.cos g.hdg, g.y + s * O.sin g.hdg, g.hdg, s⟩) := by
    unfold sampleSegment
    rw [if_neg (by exact not_not_intro hL), hline]
    simp only [hmax]
  refine ⟨?_, ?_, ?_⟩
  · rw [hss]
    simp
  · intro i hi
    rw [hss, List.getD_eq_getElem?_getD, List.getElem?_map, List.getElem?_range
      (by simpa using hi)]
    rfl
  · rw [hss, lastS_map_range]
    have hne : ((⌈g.length / step⌉.toNat : ℚ)) ≠ 0 := by
      have := hmax ▸ nseg_cast_ne_zero g.length step
      simpa using this
    show (⌈g.length / step⌉.toNat : ℚ) * (g.length / ⌈g.length / step⌉.toNat) = g.length
    field_simp

end XodrGeom

namespace XodrGeom

theorem spiralStepH_ge (O : TrigOracle) (k0 dk baseStep maxAngle L s : ℚ) :
    1/20 ≤ spiralStepH O k0 dk baseStep maxAngle L s :=
  le_max_left _ _

theorem spiralStepH_le (O : TrigOracle) (k0 dk baseStep maxAngle L s : ℚ) :
    spiralStepH O k0 dk baseStep maxAngle L s ≤ max (1/20) (L - s) := by
  unfold spiralStepH
  exact max_le_max (le_refl _) (min_le_right _ _)

theorem ite_cap_le (L v : ℚ) : (if L < v then L else v) ≤ L := by
  split
  · exact le_refl L
  · next hno => exact le_of_not_lt hno

theorem mem_of_getLast? {α : Type*} {l : List α} {p : α} (h : l.getLast? = some p) :
    p ∈ l := by
  have hne : l ≠ [] := by
    intro hnil
    rw [hnil] at h
    exact Option.noConfusion h
  have h1 := List.getLast?_eq_getLast l hne
  rw [h] at h1
  obtain rfl : p = l.getLast hne := Option.some_inj.mp h1
  exact List.getLast_mem hne

/-- Spiral loop invariant: with fuel exceeding `⌈20·(L - s)⌉`, the loop runs
to completion and the final arc-length tag lands in `[L - 1e-9, L + 0.05)`:
the `0.05` step floor can push the final tag past the declared length. -/
theorem spiralRest_lastS_spec (O : TrigOracle) (k0 dk baseStep maxAngle L : ℚ) :
    ∀ (fuel : ℕ) (s px py th : ℚ),
      (⌈(L - s) * 20⌉.toNat < fuel) → s < L + 1/20 →
      L - 1/10^9 ≤
        lastS (⟨px, py, th, s⟩ :: spiralAdaptiveRest O k0 dk baseStep maxAngle L fuel s px py th) ∧
      lastS (⟨px, py, th, s⟩ :: spiralAdaptiveRest O k0 dk baseStep maxAngle L fuel s px py th)
        < L + 1/20 := by
  intro fuel
  induction fuel with
  | zero => intro s px py th hfuel _; omega
  | succ fuel ih =>
    intro s px py th hfuel hs
    by_cases hcond : s < L - 1/10^9
    · rw [spiralAdaptiveRest, if_pos hcond]
      set h := spiralStepH O k0 dk baseStep maxAngle L s with hh
      set st := spiralRK4 O k0 dk h s px py th with hst
      rw [lastS_cons_cons]
      have hge : 1/20 ≤ h := spiralStepH_ge O k0 dk baseStep maxAngle L s
      have hle : h ≤ max (1/20) (L - s) := spiralStepH_le O k0 dk baseStep maxAngle L s
      have hs' : s + h < L + 1/20 := by
        have : max (1/20) (L - s) < L + 1/20 - s := by
          apply max_lt
          · linarith
          · linarith
        linarith
      have hc1 : (1 : ℤ) ≤ ⌈(L - s) * 20⌉ := by
        apply Int.ceil_pos.mpr
        have : (0 : ℚ) < L - s := by linarith
        positivity
      have hc2 : ⌈(L - (s + h)) * 20⌉ ≤ ⌈(L - s) * 20⌉ - 1 := by
        have harith : (L - (s + h)) * 20 ≤ (L - s) * 20 - 1 := by nlinarith
        calc ⌈(L - (s + h)) * 20⌉ ≤ ⌈(L - s) * 20 - 1⌉ := Int.ceil_le_ceil harith
          _ = ⌈(L - s) * 20⌉ - 1 := Int.ceil_sub_one _
      have hfuel' : ⌈(L - (s + h)) * 20⌉.toNat < fuel := by omega
      exact ih (s + h) st.1 st.2.1 st.2.2 hfuel' hs'
    · rw [spiralAdaptiveRest, if_neg hcond]
      constructor
      · simp only [lastS, List.getLast?_singleton]
        push_neg at hcond
        simpa using hcond
      · simp only [lastS, List.getLast?_singleton]
        simpa using hs

/-- ParamPoly3 loop invariant: every emitted arc-length tag is at most `L`. -/
theorem poly3Rest_tags_le (O : TrigOracle)
    (aU bU cU dU aV bV cV dV x y cosH sinH baseStep maxAngle L : ℚ) :
    ∀ (fuel : ℕ) (s : ℚ), s ≤ L →
      ∀ p ∈ poly3AdaptiveRest O aU bU cU dU aV bV cV dV x y cosH sinH baseStep maxAngle L fuel s,
        p.s ≤ L := by
  intro fuel
  induction fuel with
  | zero =>
    intro s _ p hp
    simp [poly3AdaptiveRest] at hp
  | succ fuel ih =>
    intro s hsL p hp
    rw [poly3AdaptiveRest] at hp
    by_cases hcond : s < L + 1/10^9
    · rw [if_pos hcond] at hp
      simp only at hp
      by_cases hbrk : L ≤ s
      · rw [if_pos hbrk] at hp
        rcases List.mem_singleton.mp hp with rfl
        exact hsL
      · rw [if_neg hbrk] at hp
        rcases List.mem_cons.mp hp with rfl | hp'
        · exact hsL
        · exact ih _ (ite_cap_le L _) _ hp'
    · rw [if_neg hcond] at hp
      exact absurd hp (List.not_mem_nil _)

end XodrGeom

namespace XodrGeom

theorem map_range_ne_nil {f : ℕ → Sample} {n : ℕ} :
    (List.range (n + 1)).map f ≠ [] := by
  simp [List.range_succ]

/-- For every non-spiral branch of `sampleSegment` (line, arc, ParamPoly3,
unknown) the emitted arc-length tags are `i·ds` with `ds = L/n`, so the last
tag is exactly the declared length. -/
theorem sampleSegment_lastS (O : TrigOracle) (g : Geom) (step : ℚ)
    (hL : 0 < g.length) (hns : ∀ k0 k1, g.kind ≠ .spiral k0 k1) :
    sampleSegment O g step ≠ [] ∧ lastS (sampleSegment O g step) = g.length := by
  obtain ⟨gs, gx, gy, ghdg, gL, gkind⟩ := g
  simp only at hL hns ⊢
  have htag : (((max 1 ⌈gL / step⌉).toNat : ℚ)) * (gL / ((max 1 ⌈gL / step⌉).toNat)) = gL := by
    have hne := nseg_cast_ne_zero gL step
    field_simp
  unfold sampleSegment
  rw [if_neg (not_not_intro hL)]
  cases gkind with
  | line => exact ⟨map_range_ne_nil, by rw [lastS_map_range]; exact htag⟩
  | arc k =>
    simp only
    split
    · exact ⟨map_range_ne_nil, by rw [lastS_map_range]; exact htag⟩
    · exact ⟨map_range_ne_nil, by rw [lastS_map_range]; exact htag⟩
  | spiral k0 k1 => exact absurd rfl (hns k0 k1)
  | poly3 aU bU cU dU aV bV cV dV =>
    exact ⟨map_range_ne_nil, by rw [lastS_map_range]; exact htag⟩
  | unknown => exact ⟨map_range_ne_nil, by rw [lastS_map_range]; exact htag⟩

/-- The ParamPoly3 branch of `sampleSegmentAdaptive` always ends exactly at
`L`: either the end-correction appends the sample at `L`, or the loop's last
sample already has tag `≥ L`, which the `≤ L` invariant pins to `L`. -/
theorem poly3_adaptive_lastS (O : TrigOracle)
    (aU bU cU dU aV bV cV dV x y cosH sinH baseStep maxAngle L : ℚ)
    (hL : 0 < L) (fuel : ℕ) :
    (match (poly3AdaptiveRest O aU bU cU dU aV bV cV dV x y cosH sinH baseStep maxAngle L
        fuel 0).getLast? with
      | none => [poly3EndSample O aU bU cU dU aV bV cV dV x y cosH sinH L]
      | some p =>
        if p.s < L then
          poly3AdaptiveRest O aU bU cU dU aV bV cV dV x y cosH sinH baseStep maxAngle L fuel 0
            ++ [poly3EndSample O aU bU cU dU aV bV cV dV x y cosH sinH L]
        else poly3AdaptiveRest O aU bU cU dU aV bV cV dV x y cosH sinH baseStep maxAngle L fuel 0)
      ≠ [] ∧
    lastS (match (poly3AdaptiveRest O aU bU cU dU aV bV cV dV x y cosH sinH baseStep maxAngle L
        fuel 0).getLast? with
      | none => [poly3EndSample O aU bU cU dU aV bV cV dV x y cosH sinH L]
      | some p =>
        if p.s < L then
          poly3AdaptiveRest O aU bU cU dU aV bV cV dV x y cosH sinH baseStep maxAngle L fuel 0
            ++ [poly3EndSample O aU bU cU dU aV bV cV dV x y cosH sinH L]
        else poly3AdaptiveRest O aU bU cU dU aV bV cV dV x y cosH sinH baseStep maxAngle L fuel 0)
      = L := by
  rcases hgl : (poly3AdaptiveRest O aU bU cU dU aV bV cV dV x y cosH sinH baseStep maxAngle L
      fuel 0).getLast? with _ | ⟨p⟩
  · refine ⟨by simp, ?_⟩
    simp [lastS, poly3EndSample]
  · dsimp only
    by_cases hps : p.s < L
    · rw [if_pos hps]
      refine ⟨by simp, ?_⟩
      rw [lastS_concat]
      rfl
    · rw [if_neg hps]
      have hmem := mem_of_getLast? hgl
      have hle := poly3Rest_tags_le O aU bU cU dU aV bV cV dV x y cosH sinH baseStep maxAngle L
        fuel 0 (le_of_lt hL) p hmem
      have hpe : p.s = L := le_antisymm hle (le_of_not_lt hps)
      constructor
      · intro hnil
        rw [hnil] at hgl
        exact Option.noConfusion hgl
      · rw [lastS, hgl]
        simpa using hpe

/-- Amended claim C2: the adaptive sampler of every primitive with positive
length terminates with a nonempty sample list; for Line, Arc, ParamPoly3 and
unknown primitives the last sample's arc length equals the declared length
exactly; for a Spiral (with fuel covering the loop's iteration count, which
`⌈20·L⌉` always does) the final arc length lies in `[L - 1e-9, L + 0.05)`:
the `0.05` minimum step can overshoot the declared length, there is no
end-correction. -/
theorem claim_C2_end_arclength (O : TrigOracle) (g : Geom)
    (optsStep optsMaxAngle : ℚ) (fuel : ℕ) (hL : 0 < g.length) :
    ((∀ k0 k1, g.kind = .spiral k0 k1 → ⌈g.length * 20⌉.toNat < fuel) →
      sampleSegmentAdaptive O g optsStep optsMaxAngle fuel ≠ []) ∧
    ((∀ k0 k1, g.kind ≠ .spiral k0 k1) →
      lastS (sampleSegmentAdaptive O g optsStep optsMaxAngle fuel) = g.length) ∧
    (∀ k0 k1, g.kind = .spiral k0 k1 → ⌈g.length * 20⌉.toNat < fuel →
      g.length - 1/10^9 ≤ lastS (sampleSegmentAdaptive O g optsStep optsMaxAngle fuel) ∧
      lastS (sampleSegmentAdaptive O g optsStep optsMaxAngle fuel) < g.length + 1/20) := by
  obtain ⟨gs, gx, gy, ghdg, gL, gkind⟩ := g
  simp only at hL ⊢
  unfold sampleSegmentAdaptive
  rw [if_neg (not_not_intro hL)]
  cases gkind with
  | line =>
    obtain ⟨h1, h2⟩ := sampleSegment_lastS O ⟨gs, gx, gy, ghdg, gL, .line⟩
      (max (1/5) (orDefault optsStep (7/10))) hL (by intro k0 k1 h; exact GeomKind.noConfusion h)
    exact ⟨fun _ => h1, fun _ => h2, fun k0 k1 h => GeomKind.noConfusion h⟩
  | arc k =>
    simp only
    obtain ⟨h1, h2⟩ := sampleSegment_lastS O ⟨gs, gx, gy, ghdg, gL, .arc k⟩
      (min (max (1/5) (orDefault optsStep (7/10)))
        (if 1 / 10 ^ 12 < |k| then max (1/200) (orDefault optsMaxAngle (3/100)) / |k| else gL))
      hL (by intro k0 k1 h; exact GeomKind.noConfusion h)
    exact ⟨fun _ => h1, fun _ => h2, fun k0 k1 h => GeomKind.noConfusion h⟩
  | spiral k0 k1 =>
    simp only
    refine ⟨fun _ => by simp, fun hna => absurd rfl (hna k0 k1), ?_⟩
    intro k0' k1' heq hfuel
    have hspec := spiralRest_lastS_spec O k0 ((k1 - k0) / gL)
      (max (1/5) (orDefault optsStep (7/10))) (max (1/200) (orDefault optsMaxAngle (3/100)))
      gL fuel 0 gx gy ghdg (by rw [sub_zero]; exact hfuel) (by linarith)
    exact hspec
  | poly3 aU bU cU dU aV bV cV dV =>
    simp only
    obtain ⟨h1, h2⟩ := poly3_adaptive_lastS O aU bU cU dU aV bV cV dV gx gy
      (O.cos ghdg) (O.sin ghdg) (max (1/5) (orDefault optsStep (7/10)))
      (max (1/200) (orDefault optsMaxAngle (3/100))) gL hL fuel
    exact ⟨fun _ => h1, fun _ => h2, fun k0 k1 h => GeomKind.noConfusion h⟩
  | unknown =>
    obtain ⟨h1, h2⟩ := sampleSegment_lastS O ⟨gs, gx, gy, ghdg, gL, .unknown⟩
      (max (1/5) (orDefault optsStep (7/10))) hL (by intro k0 k1 h; exact GeomKind.noConfusion h)
    exact ⟨fun _ => h1, fun _ => h2, fun k0 k1 h => GeomKind.noConfusion h⟩

end XodrGeom

namespace XodrGeom

/-- A constant-zero stand-in for the transcendental oracle; the spiral
arc-length tags do not depend on it. -/
def cexOracle : TrigOracle :=
  ⟨fun _ => 0, fun _ => 0, fun _ _ => 0, fun _ => 0, fun _ => 0⟩

/-- A degenerate spiral: zero curvature at both ends, length `0.03`,
shorter than the sampler's `0.05` minimum step. -/
def cexSpiral : Geom := ⟨0, 0, 0, 0, 3/100, .spiral 0 0⟩

theorem cexSpiral_run : sampleSegmentAdaptive cexOracle cexSpiral (7/10) (3/100) 2
    = [⟨0, 0, 0, 0⟩, ⟨0, 0, 0, 1/20⟩] := by
  have h2 : (2 : ℕ) = 1 + 1 := rfl
  have h1 : (1 : ℕ) = 0 + 1 := rfl
  rw [sampleSegmentAdaptive, cexSpiral]
  norm_num [h2, h1, spiralAdaptiveRest, spiralStepH, spiralRK4, orDefault, cexOracle,
    max_def, min_def]

/-- Claim C2 as stated is false: a Spiral of declared length `0.03` is
sampled with final arc length `0.05` (the `0.05` minimum adaptive step
overshoots, and the spiral branch has no end-correction), a relative error
of `2/3`, far beyond the claimed `1e-6` relative tolerance. -/
theorem claim_C2_counterexample :
    lastS (sampleSegmentAdaptive cexOracle cexSpiral (7/10) (3/100) 2) = 1/20 ∧
    ¬ (|lastS (sampleSegmentAdaptive cexOracle cexSpiral (7/10) (3/100) 2) - cexSpiral.length|
        ≤ (1/10^6) * cexSpiral.length) := by
  rw [cexSpiral_run]
  constructor
  · norm_num [lastS]
  · norm_num [lastS, cexSpiral]
    rw [abs_of_pos (show (0:ℚ) < 1/50 by norm_num)]
    norm_num

/-- Witness for the amended C2 theorem at the concrete spiral input. -/
theorem claim_C2_witness :
    (0 < cexSpiral.length) ∧
    (((∀ k0 k1, cexSpiral.kind = .spiral k0 k1 → ⌈cexSpiral.length * 20⌉.toNat < 2) →
        sampleSegmentAdaptive cexOracle cexSpiral (7/10) (3/100) 2 ≠ []) ∧
      ((∀ k0 k1, cexSpiral.kind ≠ .spiral k0 k1) →
        lastS (sampleSegmentAdaptive cexOracle cexSpiral (7/10) (3/100) 2) = cexSpiral.length) ∧
      (∀ k0 k1, cexSpiral.kind = .spiral k0 k1 → ⌈cexSpiral.length * 20⌉.toNat < 2 →
        cexSpiral.length - 1/10^9 ≤
          lastS (sampleSegmentAdaptive cexOracle cexSpiral (7/10) (3/100) 2) ∧
        lastS (sampleSegmentAdaptive cexOracle cexSpiral (7/10) (3/100) 2)
          < cexSpiral.length + 1/20)) :=
  ⟨by norm_num [cexSpiral],
   claim_C2_end_arclength cexOracle cexSpiral (7/10) (3/100) 2 (by norm_num [cexSpiral])⟩

/-- Claim C8: a Line primitive samples evenly at
`ds = length / ceil(length/targetChordLength)` (general part, via
`sampleSegment`), and the concrete line `s=0, x=0, y=0, hdg=0, length=10`
at chord target `1.0` yields exactly the 11 samples `(i, 0)` with heading 0
and arc length `i` for `i = 0..10` (via `sampleSegmentAdaptive`, which for
chord targets `≥ 0.2` passes the target through). -/
theorem claim_C8_line_sampling (O : TrigOracle) (g : Geom) (step : ℚ)
    (hline : g.kind = .line) (hL : 0 < g.length) (hstep : 0 < step)
    (hcos0 : O.cos 0 = 1) (hsin0 : O.sin 0 = 0) :
    ((sampleSegment O g step).length = ⌈g.length / step⌉.toNat + 1 ∧
     (∀ i : ℕ, i < ⌈g.length / step⌉.toNat + 1 →
       (sampleSegment O g step).getD i ⟨0, 0, 0, 0⟩ =
         ⟨g.x + (i * (g.length / ⌈g.length / step⌉.toNat)) * O.cos g.hdg,
          g.y + (i * (g.length / ⌈g.length / step⌉.toNat)) * O.sin g.hdg,
          g.hdg, i * (g.length / ⌈g.length / step⌉.toNat)⟩) ∧
     lastS (sampleSegment O g step) = g.length) ∧
    sampleSegmentAdaptive O ⟨0, 0, 0, 0, 10, .line⟩ 1 (3/100) 0 =
      (List.range 11).map (fun (i : ℕ) => ⟨(i : ℚ), 0, 0, (i : ℚ)⟩) := by
  refine ⟨sampleSegment_line_spec O g step hline hL hstep, ?_⟩
  rw [sampleSegmentAdaptive]
  norm_num [orDefault, max_def]
  rw [sampleSegment]
  have h10 : (Int.toNat 10 : ℕ) = 10 := rfl
  norm_num [max_def, h10]
  intro a ha
  rw [hcos0, hsin0]
  norm_num

end XodrGeom

namespace XodrGeom

/-- Oracle for the C8 witness, with `cos 0 = 1` and `sin 0 = 0`. -/
def c8O : TrigOracle := ⟨fun _ => 1, fun _ => 0, fun _ _ => 0, fun _ => 0, fun _ => 0⟩

/-- The concrete line of claim C8. -/
def c8G : Geom := ⟨0, 0, 0, 0, 10, .line⟩

/-- Witness for claim C8 at the concrete line input. -/
theorem claim_C8_witness :
    c8G.kind = .line ∧ 0 < c8G.length ∧ (0 : ℚ) < 1 ∧ c8O.cos 0 = 1 ∧ c8O.sin 0 = 0 ∧
    (((sampleSegment c8O c8G 1).length = ⌈c8G.length / 1⌉.toNat + 1 ∧
      (∀ i : ℕ, i < ⌈c8G.length / 1⌉.toNat + 1 →
        (sampleSegment c8O c8G 1).getD i ⟨0, 0, 0, 0⟩ =
          ⟨c8G.x + (i * (c8G.length / ⌈c8G.length / 1⌉.toNat)) * c8O.cos c8G.hdg,
           c8G.y + (i * (c8G.length / ⌈c8G.length / 1⌉.toNat)) * c8O.sin c8G.hdg,
           c8G.hdg, i * (c8G.length / ⌈c8G.length / 1⌉.toNat)⟩) ∧
      lastS (sampleSegment c8O c8G 1) = c8G.length) ∧
     sampleSegmentAdaptive c8O ⟨0, 0, 0, 0, 10, .line⟩ 1 (3/100) 0 =
       (List.range 11).map (fun (i : ℕ) => ⟨(i : ℚ), 0, 0, (i : ℚ)⟩)) :=
  ⟨rfl, by norm_num [c8G], by norm_num, rfl, rfl,
   claim_C8_line_sampling c8O c8G 1 rfl (by norm_num [c8G]) (by norm_num) rfl rfl⟩

end XodrGeom

namespace XodrLanes

open XodrGeom (TrigOracle Sample)

/-- `EPS` (src/index.js line 225): the lane-vanishing width threshold. -/
def EPS : ℚ := 5 / 1000

/-- One lane width record `{sOffset, a, b, c, d}` (parsed from `width`
elements). -/
structure WidthRec where
  sOffset : ℚ
  a : ℚ
  b : ℚ
  c : ℚ
  d : ℚ
deriving DecidableEq, Repr

/-- `laneWidthAt` (src/xodr/opendrive.js lines 134-143): pick the last width
record with `sOffset ≤ sInSection + 1e-9` (no break in the loop) and
evaluate its cubic at the local offset. -/
def laneWidthAt (widths : List WidthRec) (sInSection : ℚ) : ℚ :=
  match widths with
  | [] => 0
  | w0 :: _ =>
    let sel := widths.foldl (fun acc w => if w.sOffset ≤ sInSection + 1/10^9 then w else acc) w0
    let ds := sInSection - sel.sOffset
    sel.a + sel.b * ds + sel.c * ds * ds + sel.d * ds * ds * ds

/-- A lane `{id, type, widths}`.  The `roadMarks` and `link` fields only
feed display properties and the track construction, not the run geometry,
and are omitted here. -/
structure XLane where
  id : ℤ
  type : String
  widths : List WidthRec
deriving DecidableEq, Repr

/-- A lane section `{s, left, right}` (`center` is never consulted by the
run builder). -/
structure XSection where
  s : ℚ
  left : List XLane
  right : List XLane
deriving DecidableEq, Repr

/-- A `laneOffset` record `{s, a, b, c, d}`. -/
structure OffsetRec where
  s : ℚ
  a : ℚ
  b : ℚ
  c : ℚ
  d : ℚ
deriving DecidableEq, Repr

/-- The per-road data consumed by the run builder. -/
structure XRoadData where
  laneSections : List XSection
  laneOffsets : List OffsetRec
deriving DecidableEq, Repr

/-- The `'left'`/`'right'` side tag. -/
inductive Side
  | left
  | right
deriving DecidableEq, Repr

/-- `sec[side]` lane list access. -/
def sideLanes (sec : XSection) : Side → List XLane
  | .left => sec.left
  | .right => sec.right

/-- A node of a lane track: section index and lane id (index.js line 459;
`pred`/`succ`/`type` only matter for building the track itself). -/
structure TrackNode where
  si : ℕ
  id : ℤ
deriving DecidableEq, Repr

/-- A lane track (index.js `buildTracks` output). -/
structure Track where
  side : Side
  nodes : List TrackNode
deriving DecidableEq, Repr

/-- `sectionAt` (index.js lines 205-212): last lane section with
`s ≤ query + 1e-9`, starting from the first section (`null` when none). -/
def sectionAt (road : XRoadData) (s : ℚ) : Option XSection :=
  road.laneSections.foldl
    (fun acc ls => if ls.s ≤ s + 1/10^9 then some ls else acc)
    road.laneSections.head?

/-- `laneOffsetAt` (index.js lines 214-221). -/
def laneOffsetAt (road : XRoadData) (s : ℚ) : ℚ :=
  match road.laneOffsets with
  | [] => 0
  | r0 :: _ =>
    let sel := road.laneOffsets.foldl (fun acc r => if r.s ≤ s + 1/10^9 then r else acc) r0
    let ds := s - sel.s
    sel.a + sel.b * ds + sel.c * ds * ds + sel.d * ds * ds * ds

/-- `interpPoint` (index.js lines 228-234). -/
def interpPoint (p1 p2 : Sample) (t : ℚ) : Sample :=
  ⟨p1.x + (p2.x - p1.x) * t, p1.y + (p2.y - p1.y) * t,
   p1.th + (p2.th - p1.th) * t, p1.s + (p2.s - p1.s) * t⟩

/-- `offsetPoint` (index.js lines 689-693): shift a sample laterally along
the left normal of its heading. -/
def offsetPoint (O : TrigOracle) (p : Sample) (offset : ℚ) : Sample :=
  ⟨p.x + (-(O.sin p.th)) * offset, p.y + O.cos p.th * offset, p.th, p.s⟩

/-- The current lane's width: `laneWidthAt(thisLane?.widths || [], ds)`
with `thisLane = widths.find(w => w.id === id)`. -/
def wCurOf (lanes : List XLane) (nodeId : ℤ) (ds : ℚ) : ℚ :=
  laneWidthAt (((lanes.find? (fun ln => ln.id == nodeId)).map XLane.widths).getD []) ds

/-- The outer lateral offset accumulation (index.js lines 525-531 and the
`offPrevOuter` blocks): start from the lane-offset spline; on the left add
the widths of lanes with `id ≤ nodeId`; on the right sort ascending by id
and subtract widths of lanes with `id ≥ nodeId`. -/
def outerRefOffset (road : XRoadData) (side : Side) (nodeId : ℤ) (s secS : ℚ)
    (lanes : List XLane) : ℚ :=
  let base := laneOffsetAt road s
  match side with
  | .left =>
    lanes.foldl
      (fun acc ln => if ln.id ≤ nodeId then acc + laneWidthAt ln.widths (s - secS) else acc)
      base
  | .right =>
    (lanes.insertionSort (fun a b => a.id ≤ b.id)).foldl
      (fun acc ln => if nodeId ≤ ln.id then acc - laneWidthAt ln.widths (s - secS) else acc)
      base

/-- The EPS-crossing boundary pair (index.js lines 540-556 and 561-577,
two identical blocks): locate `t` by linear interpolation of the width
between the previous and current sample, interpolate the centerline point
and the outer offset there, and emit the outer/inner points with the inner
placed `EPS` inside the interpolated outer offset. -/
def crossingPoints (O : TrigOracle) (road : XRoadData) (track : Track)
    (samples : List Sample) (i : ℕ) (node : TrackNode) (wCur outer : ℚ) :
    Sample × Sample :=
  let side := track.side
  let p0 := samples.getD (i - 1) ⟨0, 0, 0, 0⟩
  let p1 := samples.getD i ⟨0, 0, 0, 0⟩
  let s0 := p0.s
  let sec0? := sectionAt road s0
  let widths0 := ((sec0?.map (fun sc => sideLanes sc side)).getD [])
  let node0 := (sec0?.bind (fun sc =>
    track.nodes.find? (fun n => n.si == road.laneSections.indexOf sc))).getD node
  let sec0s := (sec0?.map XSection.s).getD 0
  let w0 := wCurOf widths0 node0.id (s0 - sec0s)
  let t := if wCur - w0 ≠ 0 then (EPS - w0) / (wCur - w0) else 0
  let sp := interpPoint p0 p1 t
  let offPrevOuter := outerRefOffset road side node0.id s0 sec0s widths0
  let offOuterInterp := offPrevOuter + (outer - offPrevOuter) * t
  (offsetPoint O sp offOuterInterp,
   offsetPoint O sp (match side with
     | .left => offOuterInterp - EPS
     | .right => offOuterInterp + EPS))

/-- The run-builder state of `buildLaneRunsTrack`: the open boundary pair,
the activity flag, the previous width and the emitted features.  A feature
is recorded as its `(runOuter, runInner)` boundary pair; the source wraps
it into a polygon via `toPolygon` (see `laneRunFeature`) and attaches
display properties. -/
structure RunState where
  runOuter : List Sample
  runInner : List Sample
  active : Bool
  prevWidth : ℚ
  features : List (List Sample × List Sample)
deriving DecidableEq, Repr

/-- Emit the open run as a feature when both boundaries have at least two
points (index.js lines 495, 578, 604). -/
def emitRun (st : RunState) : List (List Sample × List Sample) :=
  if 2 ≤ st.runOuter.length ∧ 2 ≤ st.runInner.length
  then st.features ++ [(st.runOuter, st.runInner)]
  else st.features

/-- One iteration of the `buildLaneRunsTrack` loop (index.js lines 488-603). -/
def trackStep (O : TrigOracle) (road : XRoadData) (track : Track)
    (samples : List Sample) (st : RunState) (i : ℕ) : RunState :=
  let p := samples.getD i ⟨0, 0, 0, 0⟩
  let s := p.s
  let sec? := sectionAt road s
  let node? := sec?.bind (fun sec =>
    track.nodes.find? (fun n => n.si == road.laneSections.indexOf sec))
  match node?, sec? with
  | some node, some sec =>
    let side := track.side
    let lanes := sideLanes sec side
    let wCur := wCurOf lanes node.id (s - sec.s)
    let outer := outerRefOffset road side node.id s sec.s lanes
    let inner := match side with
      | .left => outer - wCur
      | .right => outer + wCur
    let pOuter := offsetPoint O p outer
    let pInner := offsetPoint O p inner
    if EPS < wCur then
      let st1 :=
        if st.active then st
        else
          if 0 < i ∧ st.prevWidth ≤ EPS then
            let cp := crossingPoints O road track samples i node wCur outer
            { st with
              runOuter := st.runOuter ++ [cp.1],
              runInner := st.runInner ++ [cp.2],
              active := true }
          else { st with active := true }
      { st1 with
        runOuter := st1.runOuter ++ [pOuter],
        runInner := st1.runInner ++ [pInner],
        prevWidth := wCur }
    else
      if st.active then
        let st1 :=
          if 0 < i then
            let cp := crossingPoints O road track samples i node wCur outer
            { st with
              runOuter := st.runOuter ++ [cp.1],
              runInner := st.runInner ++ [cp.2] }
          else st
        { runOuter := [], runInner := [], active := false, prevWidth := wCur,
          features := emitRun st1 }
      else { st with prevWidth := wCur }
  | _, _ =>
    -- no lane node in this section: pause the track (index.js lines 493-519)
    if st.active then
      { runOuter := [], runInner := [], active := false, prevWidth := 0,
        features := emitRun st }
    else st

/-- `buildLaneRunsTrack` (index.js lines 481-627), reduced to the emitted
run boundary pairs: fold the step over all sample indices and finalise the
last open run. -/
def buildLaneRunsTrack (O : TrigOracle) (road : XRoadData) (track : Track)
    (samples : List Sample) : List (List Sample × List Sample) :=
  let st := (List.range samples.length).foldl (trackStep O road track samples)
    ⟨[], [], false, 0, []⟩
  if st.active then emitRun st else st.features

/-- The polygon emitted for a run (index.js lines 508, 584, 610):
`left` runs pass `(runOuter, runInner)` to `toPolygon`, `right` runs pass
`(runInner, runOuter)`. -/
def laneRunFeature (side : Side) (runOuter runInner : List Sample)
    (proj : ℚ × ℚ → ℚ × ℚ) : List (ℚ × ℚ) :=
  match side with
  | .left => XodrGeom.toPolygon runOuter runInner proj
  | .right => XodrGeom.toPolygon runInner runOuter proj

end XodrLanes

namespace XodrLanes

open XodrGeom (TrigOracle Sample)

/-- A constant-zero trig oracle; lateral offsets change positions but not
arc-length tags, so the boundary-sample arc lengths are oracle-independent. -/
def zeroO : TrigOracle := ⟨fun _ => 0, fun _ => 0, fun _ _ => 0, fun _ => 0, fun _ => 0⟩

/-- C5 counterexample road: one section at `s = 0`, single left lane id 1
with the cubic width `w(ds) = 1000·ds - 999·ds³` (zero at `ds = 0`, `1` at
`ds = 1`, huge slope near zero). -/
def c5road : XRoadData := ⟨[⟨0, [⟨1, "driving", [⟨0, 0, 1000, 0, -999⟩]⟩], []⟩], []⟩

/-- The track following lane 1. -/
def c5track : Track := ⟨.left, [⟨0, 1⟩]⟩

/-- Two centerline samples at arc lengths 0 and 1. -/
def c5samples : List Sample := [⟨0, 0, 0, 0⟩, ⟨1, 0, 0, 1⟩]

set_option maxRecDepth 4000 in
theorem c5_run :
    ((buildLaneRunsTrack zeroO c5road c5track c5samples).map
      (fun r => r.1.map Sample.s)) = [[1/200, 1]] := by
  norm_num [buildLaneRunsTrack, trackStep, crossingPoints, emitRun, sectionAt,
    laneOffsetAt, laneWidthAt, wCurOf, outerRefOffset, sideLanes, interpPoint,
    offsetPoint, EPS, zeroO, c5road, c5track, c5samples, List.range_succ,
    List.find?, List.indexOf, List.findIdx, List.findIdx.go]

/-- Claim C5 as stated is false: for the cubic width `1000·ds - 999·ds³`
crossing `EPS` between the samples at `s = 0` and `s = 1`, the run-boundary
sample is emitted at `s = 1/200` (linear interpolation of the width), where
the actual lane width is `1000/200 - 999/200³ ≈ 4.9999` — vastly more than
`2·EPS = 0.01`. -/
theorem claim_C5_counterexample :
    ((buildLaneRunsTrack zeroO c5road c5track c5samples).map
      (fun r => r.1.map Sample.s)) = [[1/200, 1]] ∧
    2 * EPS ≤ laneWidthAt [⟨0, 0, 1000, 0, -999⟩] (1/200 - 0) := by
  refine ⟨c5_run, ?_⟩
  norm_num [laneWidthAt, EPS]

/-- A road with one lane section at `s = 0` holding a single left lane of
id 1 whose width is the affine polynomial `a + b·ds`. -/
def affineRoad (a b : ℚ) (ty : String) : XRoadData :=
  ⟨[⟨0, [⟨1, ty, [⟨0, a, b, 0, 0⟩]⟩], []⟩], []⟩

/-- The track that follows lane 1 through the single section. -/
def singleTrack : Track := ⟨.left, [⟨0, 1⟩]⟩

theorem affine_width (a b s : ℚ) : laneWidthAt [⟨0, a, b, 0, 0⟩] s = a + b * s := by
  simp only [laneWidthAt, List.foldl, ite_self]
  ring

theorem affine_sectionAt (a b s : ℚ) (ty : String) :
    sectionAt (affineRoad a b ty) s = some ⟨0, [⟨1, ty, [⟨0, a, b, 0, 0⟩]⟩], []⟩ := by
  simp only [sectionAt, affineRoad, List.foldl, List.head?, ite_self]

theorem affine_indexOf (a b : ℚ) (ty : String) :
    (affineRoad a b ty).laneSections.indexOf
      ⟨0, [⟨1, ty, [⟨0, a, b, 0, 0⟩]⟩], []⟩ = 0 := by
  simp [affineRoad, List.indexOf, List.findIdx_cons]

theorem affine_outer (a b s : ℚ) (ty : String) :
    outerRefOffset (affineRoad a b ty) .left 1 s 0 [⟨1, ty, [⟨0, a, b, 0, 0⟩]⟩]
      = a + b * s := by
  simp only [outerRefOffset, laneOffsetAt, affineRoad, List.foldl, affine_width, sub_zero]
  norm_num

theorem affine_step0 (O : TrigOracle) (a b : ℚ) (ty : String) (p0 p1 : Sample)
    (hw0 : ¬ (EPS < a + b * p0.s)) :
    trackStep O (affineRoad a b ty) singleTrack [p0, p1] ⟨[], [], false, 0, []⟩ 0
      = ⟨[], [], false, a + b * p0.s, []⟩ := by
  rw [trackStep]
  simp only [List.getD_cons_zero, List.getD_cons_succ, Option.getD_some,
    affine_sectionAt, Option.some_bind, affine_indexOf,
    show singleTrack.side = Side.left from rfl,
    show singleTrack.nodes = [⟨0, 1⟩] from rfl,
    List.find?, beq_self_eq_true, sideLanes, wCurOf, Option.map_some', sub_zero,
    affine_width, affine_outer]
  rw [if_neg hw0]
  norm_num

theorem affine_step1 (O : TrigOracle) (a b : ℚ) (ty : String) (p0 p1 : Sample)
    (hw0 : a + b * p0.s ≤ EPS) (hw1 : EPS < a + b * p1.s) :
    trackStep O (affineRoad a b ty) singleTrack [p0, p1] ⟨[], [], false, a + b * p0.s, []⟩ 1
      = ⟨[(crossingPoints O (affineRoad a b ty) singleTrack [p0, p1] 1 ⟨0, 1⟩
            (a + b * p1.s) (a + b * p1.s)).1,
          offsetPoint O p1 (a + b * p1.s)],
         [(crossingPoints O (affineRoad a b ty) singleTrack [p0, p1] 1 ⟨0, 1⟩
            (a + b * p1.s) (a + b * p1.s)).2,
          offsetPoint O p1 (a + b * p1.s - (a + b * p1.s))],
         true, a + b * p1.s, []⟩ := by
  rw [trackStep]
  simp only [List.getD_cons_zero, List.getD_cons_succ, Option.getD_some,
    affine_sectionAt, Option.some_bind, affine_indexOf,
    show singleTrack.side = Side.left from rfl,
    show singleTrack.nodes = [⟨0, 1⟩] from rfl,
    List.find?, beq_self_eq_true, sideLanes, wCurOf, Option.map_some', sub_zero,
    affine_width, affine_outer]
  rw [if_pos hw1]
  norm_num [hw0]

theorem affine_crossing_s (O : TrigOracle) (a b ov : ℚ) (ty : String) (p0 p1 : Sample)
    (hne : (a + b * p1.s) - (a + b * p0.s) ≠ 0) :
    (crossingPoints O (affineRoad a b ty) singleTrack [p0, p1] 1 ⟨0, 1⟩
        (a + b * p1.s) ov).1.s
      = p0.s + (p1.s - p0.s) *
          ((EPS - (a + b * p0.s)) / ((a + b * p1.s) - (a + b * p0.s))) := by
  rw [crossingPoints]
  simp only [List.getD_cons_zero, List.getD_cons_succ, Option.getD_some,
    affine_sectionAt, Option.some_bind, affine_indexOf,
    show singleTrack.side = Side.left from rfl,
    show singleTrack.nodes = [⟨0, 1⟩] from rfl,
    List.find?, beq_self_eq_true, sideLanes, wCurOf, Option.map_some', Option.map_some,
    sub_zero, Nat.sub_self, affine_width, affine_outer]
  rw [if_pos hne]
  simp [interpPoint, offsetPoint]

theorem affine_buildRuns (O : TrigOracle) (a b : ℚ) (ty : String) (p0 p1 : Sample)
    (hw0 : a + b * p0.s ≤ EPS) (hw1 : EPS < a + b * p1.s) :
    buildLaneRunsTrack O (affineRoad a b ty) singleTrack [p0, p1]
      = [([(crossingPoints O (affineRoad a b ty) singleTrack [p0, p1] 1 ⟨0, 1⟩
              (a + b * p1.s) (a + b * p1.s)).1,
            offsetPoint O p1 (a + b * p1.s)],
          [(crossingPoints O (affineRoad a b ty) singleTrack [p0, p1] 1 ⟨0, 1⟩
              (a + b * p1.s) (a + b * p1.s)).2,
           offsetPoint O p1 (a + b * p1.s - (a + b * p1.s))])] := by
  rw [buildLaneRunsTrack]
  rw [show List.range ([p0, p1].length) = [0, 1] from rfl]
  rw [show ∀ f : RunState → ℕ → RunState, List.foldl f ⟨[], [], false, 0, []⟩ [0, 1]
      = f (f ⟨[], [], false, 0, []⟩ 0) 1 from fun f => rfl]
  rw [affine_step0 O a b ty p0 p1 (not_lt.mpr hw0), affine_step1 O a b ty p0 p1 hw0 hw1]
  simp [emitRun]

/-- Amended claim C5: a run opens exactly while the lane width exceeds
`EPS = 0.005`, and when the width crosses `EPS` between two consecutive
samples the run-boundary point is placed by linear interpolation of the
*width* between the samples.  When the lane width is affine over the
crossing interval the lane width at the emitted boundary sample equals
`EPS` exactly; for general cubic widths the boundary-sample width can be
arbitrarily far from `EPS` (see the counterexample). -/
theorem claim_C5_boundary_width (O : TrigOracle) (a b : ℚ) (ty : String) (p0 p1 : Sample)
    (hw0 : a + b * p0.s ≤ EPS) (hw1 : EPS < a + b * p1.s) :
    (buildLaneRunsTrack O (affineRoad a b ty) singleTrack [p0, p1]).length = 1 ∧
    ∀ r ∈ buildLaneRunsTrack O (affineRoad a b ty) singleTrack [p0, p1],
      ∀ q ∈ r.1.take 1, laneWidthAt [⟨0, a, b, 0, 0⟩] q.s = EPS := by
  have hne : (a + b * p1.s) - (a + b * p0.s) ≠ 0 := ne_of_gt (by linarith)
  have hd : (a + b * p1.s) - (a + b * p0.s) = b * (p1.s - p0.s) := by ring
  have hb : b ≠ 0 := by
    intro h0
    exact hne (by rw [h0]; ring)
  have hds : p1.s - p0.s ≠ 0 := by
    intro h0
    exact hne (by rw [hd, h0, mul_zero])
  rw [affine_buildRuns O a b ty p0 p1 hw0 hw1]
  refine ⟨rfl, ?_⟩
  intro r hr q hq
  rcases List.mem_singleton.mp hr with rfl
  simp only [List.take_succ_cons, List.take_zero] at hq
  rcases List.mem_singleton.mp hq with rfl
  rw [affine_width, affine_crossing_s O a b _ ty p0 p1 hne, hd]
  field_simp
  ring

/-- Witness for the amended C5 claim: width `0 + 1·ds` on samples at
`s = 0` and `s = 1`. -/
theorem claim_C5_witness :
    ((0 : ℚ) + 1 * (⟨0, 0, 0, 0⟩ : Sample).s ≤ EPS) ∧
    (EPS < (0 : ℚ) + 1 * (⟨1, 0, 0, 1⟩ : Sample).s) ∧
    ((buildLaneRunsTrack zeroO (affineRoad 0 1 "driving") singleTrack
        [⟨0, 0, 0, 0⟩, ⟨1, 0, 0, 1⟩]).length = 1 ∧
     ∀ r ∈ buildLaneRunsTrack zeroO (affineRoad 0 1 "driving") singleTrack
        [⟨0, 0, 0, 0⟩, ⟨1, 0, 0, 1⟩],
       ∀ q ∈ r.1.take 1, laneWidthAt [⟨0, 0, 1, 0, 0⟩] q.s = EPS) :=
  ⟨by norm_num [EPS], by norm_num [EPS],
   claim_C5_boundary_width zeroO 0 1 "driving" ⟨0, 0, 0, 0⟩ ⟨1, 0, 0, 1⟩
     (by norm_num [EPS]) (by norm_num [EPS])⟩

theorem map_proj_take_one {l : List Sample} (h : l ≠ []) (f : Sample → ℚ × ℚ) :
    (l.map f).take 1 = [f (l.head h)] := by
  cases l with
  | nil => exact absurd rfl h
  | cons a t => rfl

/-- Claim C9: the emitted lane-run polygon ring is
`(outer, inner reversed, first outer point)` for a left lane and
`(inner, outer reversed, first inner point)` for a right lane. -/
theorem claim_C9_polygon_winding (o i : List Sample) (proj : ℚ × ℚ → ℚ × ℚ)
    (ho : o ≠ []) (hi : i ≠ []) :
    laneRunFeature .left o i proj
      = o.map (fun p => proj (p.x, p.y)) ++ (i.map (fun p => proj (p.x, p.y))).reverse
        ++ [proj ((o.head ho).x, (o.head ho).y)] ∧
    laneRunFeature .right o i proj
      = i.map (fun p => proj (p.x, p.y)) ++ (o.map (fun p => proj (p.x, p.y))).reverse
        ++ [proj ((i.head hi).x, (i.head hi).y)] := by
  constructor
  · show XodrGeom.toPolygon o i proj = _
    rw [XodrGeom.toPolygon]
    rw [map_proj_take_one ho]
  · show XodrGeom.toPolygon i o proj = _
    rw [XodrGeom.toPolygon]
    rw [map_proj_take_one hi]

/-- Witness for claim C9 at concrete one-point boundaries with the identity
projector. -/
theorem claim_C9_witness :
    (([⟨1, 2, 0, 0⟩] : List Sample) ≠ []) ∧ (([⟨3, 4, 0, 0⟩] : List Sample) ≠ []) ∧
    (laneRunFeature .left [⟨1, 2, 0, 0⟩] [⟨3, 4, 0, 0⟩] id
      = ([⟨1, 2, 0, 0⟩] : List Sample).map (fun p => id (p.x, p.y))
        ++ (([⟨3, 4, 0, 0⟩] : List Sample).map (fun p => id (p.x, p.y))).reverse
        ++ [id (((([⟨1, 2, 0, 0⟩] : List Sample)).head (by simp)).x,
              ((([⟨1, 2, 0, 0⟩] : List Sample)).head (by simp)).y)] ∧
     laneRunFeature .right [⟨1, 2, 0, 0⟩] [⟨3, 4, 0, 0⟩] id
      = ([⟨3, 4, 0, 0⟩] : List Sample).map (fun p => id (p.x, p.y))
        ++ (([⟨1, 2, 0, 0⟩] : List Sample).map (fun p => id (p.x, p.y))).reverse
        ++ [id (((([⟨3, 4, 0, 0⟩] : List Sample)).head (by simp)).x,
              ((([⟨3, 4, 0, 0⟩] : List Sample)).head (by simp)).y)]) :=
  ⟨by simp, by simp,
   claim_C9_polygon_winding [⟨1, 2, 0, 0⟩] [⟨3, 4, 0, 0⟩] id (by simp) (by simp)⟩

end XodrLanes

namespace XodrParse

/-! Shallow embedding of `src/xodr/opendrive.js`.

The DOM is abstracted: an `XmlDoc` is what `DOMParser` + the `querySelector`
calls of `parseOpenDrive` observe — attribute values are `Option String`
(`none` = `getAttribute` returned `null`), element presence is `Option`.
A document with a `parsererror` element is the `none` input.
JavaScript `Number(...)` followed by the `isFinite` test is the oracle
`jsNum : String → Option ℚ`, and the regex scan of `findNumberInCrs` is the
oracle `findNum : String → String → Option ℚ`. -/

/-- `<geometry>` child element, as probed by the `if`/`else if` chain. -/
inductive GeomChild
  | line
  | arc (curvature : Option String)
  | spiral (curvStart curvatureStart curvEnd curvatureEnd : Option String)
  | paramPoly3 (aU bU cU dU aV bV cV dV : Option String)
  | other

structure XmlGeom where
  s : Option String
  x : Option String
  y : Option String
  hdg : Option String
  length : Option String
  child : GeomChild

structure XmlWidth where
  sOffset : Option String
  a : Option String
  b : Option String
  c : Option String
  d : Option String

structure XmlRoadMark where
  sOffset : Option String
  type : Option String
  color : Option String
  width : Option String
  material : Option String
  laneChange : Option String
  weight : Option String
  height : Option String
  rule : Option String

/-- `<link>`: each of predecessor/successor is `some idAttr` when the child
element exists (with its `id` attribute), `none` when absent. -/
structure XmlLink where
  predecessor : Option (Option String)
  successor : Option (Option String)

structure XmlLane where
  id : Option String
  type : Option String
  link : Option XmlLink
  widths : List XmlWidth
  roadMarks : List XmlRoadMark

structure XmlLaneSection where
  s : Option String
  left : Option (List XmlLane)
  center : Option (List XmlLane)
  right : Option (List XmlLane)

structure XmlLaneOffset where
  s : Option String
  a : Option String
  b : Option String
  c : Option String
  d : Option String

structure XmlRoad where
  id : Option String
  name : Option String
  length : Option String
  geoms : List XmlGeom
  laneOffsets : List XmlLaneOffset
  laneSections : List XmlLaneSection

/-- `geoRef = some t` when `header > geoReference` exists with (trimmed)
text `t`; `none` gives the JS fallback `''`. -/
structure XmlDoc where
  geoRef : Option String
  roads : List XmlRoad

/-- `num(v)`: `undefined` for a `null` attribute, else `Number(v)` filtered
through `isFinite` (the oracle). -/
def num (jsNum : String → Option ℚ) : Option String → Option ℚ
  | none => none
  | some v => jsNum v

/-- JS `a || b` on attribute strings: `null` and `''` are falsy. -/
def orAttr : Option String → Option String → Option String
  | some s, b => if s = "" then b else some s
  | none, b => b

/-- JS `a || undefined` on an attribute string: `''` becomes `undefined`. -/
def orUndef : Option String → Option String
  | some s => if s = "" then none else some s
  | none => none

/-- JS `a || 'd'` on an attribute string with a non-empty default. -/
def orStr (d : String) : Option String → String
  | some s => if s = "" then d else s
  | none => d

/-- `findNumberInCrs`: `undefined` on falsy (empty) text, else the regex
match (oracle). -/
def findNumberInCrs (findNum : String → String → Option ℚ) (crsText key : String) : Option ℚ :=
  if crsText = "" then none else findNum crsText key

inductive PGeomKind
  | line
  | arc (curvature : Option ℚ)
  | spiral (curvStart curvEnd : Option ℚ)
  | poly3 (aU bU cU dU aV bV cV dV : Option ℚ)
  deriving DecidableEq, Repr

structure PGeom where
  s : Option ℚ
  x : Option ℚ
  y : Option ℚ
  hdg : Option ℚ
  length : Option ℚ
  kind : PGeomKind
  deriving DecidableEq, Repr

structure PWidth where
  sOffset : Option ℚ
  a : Option ℚ
  b : Option ℚ
  c : Option ℚ
  d : Option ℚ
  deriving DecidableEq, Repr

structure PRoadMark where
  sOffset : ℚ
  type : String
  color : Option String
  width : Option ℚ
  material : Option String
  laneChange : Option String
  weight : Option String
  height : Option ℚ
  rule : Option String
  deriving DecidableEq, Repr

structure PLane where
  id : Option ℚ
  type : String
  widths : List PWidth
  roadMarks : List PRoadMark
  predecessor : Option ℚ
  successor : Option ℚ
  deriving DecidableEq, Repr

structure PSection where
  s : Option ℚ
  left : List PLane
  center : List PLane
  right : List PLane
  deriving DecidableEq, Repr

structure POffset where
  s : ℚ
  a : ℚ
  b : ℚ
  c : ℚ
  d : ℚ
  deriving DecidableEq, Repr

structure PRoad where
  id : Option String
  name : String
  length : Option ℚ
  planView : List PGeom
  laneSections : List PSection
  laneOffsets : List POffset
  deriving DecidableEq, Repr

structure PHeader where
  lat0 : Option ℚ
  lon0 : Option ℚ
  geoRef : String
  deriving DecidableEq, Repr

structure RoadModel where
  header : PHeader
  roads : List PRoad
  deriving DecidableEq, Repr

/-- One `<geometry>` element: pushed with its recognized child's payload, or
skipped (`none`) when no known child element is present. -/
def parseGeom (jsNum : String → Option ℚ) (g : XmlGeom) : Option PGeom :=
  let base : PGeomKind → PGeom := fun k =>
    ⟨num jsNum g.s, num jsNum g.x, num jsNum g.y, num jsNum g.hdg, num jsNum g.length, k⟩
  match g.child with
  | .line => some (base .line)
  | .arc curv => some (base (.arc (num jsNum curv)))
  | .spiral cs ccs ce cce =>
      some (base (.spiral (num jsNum (orAttr cs ccs)) (num jsNum (orAttr ce cce))))
  | .paramPoly3 aU bU cU dU aV bV cV dV =>
      some (base (.poly3 (num jsNum aU) (num jsNum bU) (num jsNum cU) (num jsNum dU)
        (num jsNum aV) (num jsNum bV) (num jsNum cV) (num jsNum dV)))
  | .other => none

/-- Lane comparator `(a, b) => b.id - a.id`: descending by id; a `NaN`
difference (an undefined id) is treated as `+0` by the JS sort, i.e. a tie. -/
def laneBefore (a b : PLane) : Bool :=
  match a.id, b.id with
  | some i, some j => decide (j ≤ i)
  | _, _ => true

/-- `readLanes(container)`: `[]` for a missing container, else the lanes in
document order, sorted descending by id (stable). -/
def readLanes (jsNum : String → Option ℚ) : Option (List XmlLane) → List PLane
  | none => []
  | some ls =>
    let lanes := ls.map (fun lane =>
      let pred := match lane.link with
        | some lk => (lk.predecessor).bind (fun idAttr => num jsNum idAttr)
        | none => none
      let succ := match lane.link with
        | some lk => (lk.successor).bind (fun idAttr => num jsNum idAttr)
        | none => none
      let widths := lane.widths.map (fun w =>
        (⟨num jsNum w.sOffset, num jsNum w.a, num jsNum w.b, num jsNum w.c,
          num jsNum w.d⟩ : PWidth))
      let roadMarks := lane.roadMarks.map (fun rm =>
        (⟨(num jsNum rm.sOffset).getD 0, orStr "none" rm.type, orUndef rm.color,
          num jsNum rm.width, orUndef rm.material, orUndef rm.laneChange,
          orUndef rm.weight, num jsNum rm.height, orUndef rm.rule⟩ : PRoadMark))
      let roadMarks := roadMarks.insertionSort (fun a b => a.sOffset ≤ b.sOffset)
      (⟨num jsNum lane.id, orStr "none" lane.type, widths, roadMarks, pred, succ⟩ : PLane))
    lanes.insertionSort (fun a b => laneBefore a b = true)

/-- The body of the per-road `forEach` callback of `parseOpenDrive`. -/
def parseRoad (jsNum : String → Option ℚ) (r : XmlRoad) : PRoad :=
  let planView := r.geoms.filterMap (parseGeom jsNum)
  let laneOffsets := r.laneOffsets.map (fun lo =>
    (⟨(num jsNum lo.s).getD 0, (num jsNum lo.a).getD 0, (num jsNum lo.b).getD 0,
      (num jsNum lo.c).getD 0, (num jsNum lo.d).getD 0⟩ : POffset))
  let laneOffsets := laneOffsets.insertionSort (fun a b => a.s ≤ b.s)
  let laneSections := r.laneSections.map (fun ls =>
    (⟨num jsNum ls.s, readLanes jsNum ls.left, readLanes jsNum ls.center,
      readLanes jsNum ls.right⟩ : PSection))
  ⟨r.id, (r.name).getD "", num jsNum r.length, planView, laneSections, laneOffsets⟩

/-- `parseOpenDrive`: throws `'XML parse error'` when the DOM holds a
`parsererror` (the `none` input); otherwise reads the header and pushes one
road record per `<road>` element, unconditionally. -/
def parseOpenDrive (jsNum : String → Option ℚ) (findNum : String → String → Option ℚ)
    (doc : Option XmlDoc) : Except String RoadModel :=
  match doc with
  | none => Except.error "XML parse error"
  | some d =>
    let geoRef := (d.geoRef).getD ""
    let lat0 := findNumberInCrs findNum geoRef "lat_0"
    let lon0 := findNumberInCrs findNum geoRef "lon_0"
    let roads := d.roads.foldl (fun acc r => acc ++ [parseRoad jsNum r]) []
    Except.ok ⟨⟨lat0, lon0, geoRef⟩, roads⟩

theorem foldl_push_eq_map {α β : Type} (f : α → β) (l : List α) (acc : List β) :
    l.foldl (fun a r => a ++ [f r]) acc = acc ++ l.map f := by
  induction l generalizing acc with
  | nil => simp
  | cons x t ih => simp [List.foldl, ih]

/-- Claim C4, first half confirmed, second half corrected: a `parsererror`
is fatal (error, no model); but for a document that parses, NO road is ever
skipped — the output holds exactly one record per `<road>` element, in
order, even when `id`, `length` and all geometry are missing (those fields
are simply `undefined`/empty in the record). -/
theorem claim_C4_parse_behavior (jsNum : String → Option ℚ) (findNum : String → String → Option ℚ) :
    parseOpenDrive jsNum findNum none = Except.error "XML parse error" ∧
    ∀ d : XmlDoc, parseOpenDrive jsNum findNum (some d)
      = Except.ok ⟨⟨findNumberInCrs findNum ((d.geoRef).getD "") "lat_0",
                    findNumberInCrs findNum ((d.geoRef).getD "") "lon_0",
                    (d.geoRef).getD ""⟩,
                   d.roads.map (parseRoad jsNum)⟩ := by
  refine ⟨rfl, fun d => ?_⟩
  rw [parseOpenDrive]
  rw [foldl_push_eq_map]
  rfl

/-- A `Number` oracle that recognizes no numeral: every attribute parses to
`undefined`. -/
def noNum : String → Option ℚ := fun _ => none

def noFind : String → String → Option ℚ := fun _ _ => none

/-- A road element with no `id`, no `length` and no geometry at all. -/
def badRoad : XmlRoad := ⟨none, none, none, [], [], []⟩

/-- Claim C4's second half is false on the code: a road lacking its
required id/length/geometry is NOT skipped — the parsed model still holds
one road record (with `undefined` id/length and an empty planView). -/
theorem claim_C4_counterexample :
    parseOpenDrive noNum noFind (some ⟨none, [badRoad]⟩)
      = Except.ok ⟨⟨none, none, ""⟩, [⟨none, "", none, [], [], []⟩]⟩ := by
  rfl

end XodrParse

namespace XodrEditor

/-! Shallow embedding of the axis-rounding part of `src/editor.js`
(`smoothAxisCoords`, `getRoundK`, `tangentLengthAt`) and of the
export/import round-trip (`__ed_buildXodr` axes blob,
`editorIngestEditorAxes`).

Coordinates are pairs of exact rationals.  The map projection
(`map.project` / `map.unproject`) and the transcendental `Math`
functions are oracle fields of `EdOracle`; `Math.hypot` is an oracle
too.  The per-axis rounding object is a partial map `ℕ → Option ℚ`
(`none` = index absent or not a finite number). -/

structure EdOracle where
  proj : ℚ × ℚ → ℚ × ℚ
  unproj : ℚ × ℚ → ℚ × ℚ
  hypot : ℚ → ℚ → ℚ
  acos : ℚ → ℚ
  tan : ℚ → ℚ
  atan2 : ℚ → ℚ → ℚ
  cos : ℚ → ℚ
  sin : ℚ → ℚ
  pi : ℚ

def sub (a b : ℚ × ℚ) : ℚ × ℚ := (a.1 - b.1, a.2 - b.2)

def padd (a b : ℚ × ℚ) : ℚ × ℚ := (a.1 + b.1, a.2 + b.2)

def pmul (a : ℚ × ℚ) (k : ℚ) : ℚ × ℚ := (a.1 * k, a.2 * k)

def plen (O : EdOracle) (v : ℚ × ℚ) : ℚ := O.hypot v.1 v.2

/-- `norm(v)`: unit vector when the length exceeds `1e-9`, else the zero
vector. -/
def norm (O : EdOracle) (v : ℚ × ℚ) : ℚ × ℚ :=
  if 1 / 10 ^ 9 < plen O v then (v.1 / plen O v, v.2 / plen O v) else (0, 0)

def leftN (v : ℚ × ℚ) : ℚ × ℚ := (-v.2, v.1)

def dot (a b : ℚ × ℚ) : ℚ := a.1 * b.1 + a.2 * b.2

def crossZ (a b : ℚ × ℚ) : ℚ := a.1 * b.2 - a.2 * b.1

def sign (x : ℚ) : ℚ := if 0 < x then 1 else if x < 0 then -1 else 0

def clamp1 (c : ℚ) : ℚ := max (-1) (min 1 c)

def clamp01 (k : ℚ) : ℚ := max 0 (min 1 k)

/-- `getRoundK`: the stored per-vertex factor, defaulting to 1 (full
rounding) when absent or not a finite number. -/
def getRoundK (rounding : ℕ → Option ℚ) (idx : ℕ) : ℚ := (rounding idx).getD 1

/-! Per-vertex quantities of `smoothAxisCoords`, each over the projected
point list `px` (in range, `px.getD j _ = proj (coords.getD j _)`). -/

def v0At (O : EdOracle) (px : List (ℚ × ℚ)) (i : ℕ) : ℚ × ℚ :=
  norm O (sub (px.getD i (0, 0)) (px.getD (i - 1) (0, 0)))

def v1At (O : EdOracle) (px : List (ℚ × ℚ)) (i : ℕ) : ℚ × ℚ :=
  norm O (sub (px.getD (i + 1) (0, 0)) (px.getD i (0, 0)))

def l1At (O : EdOracle) (px : List (ℚ × ℚ)) (i : ℕ) : ℚ :=
  plen O (sub (px.getD i (0, 0)) (px.getD (i - 1) (0, 0)))

def l2At (O : EdOracle) (px : List (ℚ × ℚ)) (i : ℕ) : ℚ :=
  plen O (sub (px.getD (i + 1) (0, 0)) (px.getD i (0, 0)))

def alphaAt (O : EdOracle) (px : List (ℚ × ℚ)) (i : ℕ) : ℚ :=
  O.acos (clamp1 (dot (v0At O px i) (v1At O px i)))

def turnAt (O : EdOracle) (px : List (ℚ × ℚ)) (i : ℕ) : ℚ :=
  sign (crossZ (v0At O px i) (v1At O px i))

def tanHalfAt (O : EdOracle) (px : List (ℚ × ℚ)) (i : ℕ) : ℚ :=
  O.tan (alphaAt O px i / 2)

/-- `t_goal = (clamp01(k) * min(l1,l2) / alpha) * tan(alpha/2)`. -/
def tGoalAt (O : EdOracle) (rounding : ℕ → Option ℚ) (px : List (ℚ × ℚ)) (i : ℕ) : ℚ :=
  clamp01 (getRoundK rounding i) * min (l1At O px i) (l2At O px i) / alphaAt O px i
    * tanHalfAt O px i

/-- `tangentLengthAt(coords, idx, axisId)`: 0 at endpoints, 0 when the
corner is (near-)straight, else `max(0, min(t_goal, 0.49*minLen))` —
note: no 1-pixel floor and no neighbor-aware clamp here. -/
def tangentLengthAt (O : EdOracle) (rounding : ℕ → Option ℚ) (coords : List (ℚ × ℚ))
    (idx : ℕ) : ℚ :=
  if idx = 0 ∨ coords.length - 1 ≤ idx then 0
  else if ¬ (1 / 1000 < alphaAt O (coords.map O.proj) idx) then 0
  else if ¬ (1 / 10 ^ 6 < tanHalfAt O (coords.map O.proj) idx) then 0
  else max 0 (min (tGoalAt O rounding (coords.map O.proj) idx)
    (49 / 100 * min (l1At O (coords.map O.proj) idx) (l2At O (coords.map O.proj) idx)))

def tPrevNAt (O : EdOracle) (rounding : ℕ → Option ℚ) (coords : List (ℚ × ℚ)) (i : ℕ) : ℚ :=
  if 2 ≤ i then tangentLengthAt O rounding coords (i - 1) else 0

def tNextNAt (O : EdOracle) (rounding : ℕ → Option ℚ) (coords px : List (ℚ × ℚ))
    (i : ℕ) : ℚ :=
  if i + 1 ≤ px.length - 2 then tangentLengthAt O rounding coords (i + 1) else 0

def tMaxAdjAt (O : EdOracle) (rounding : ℕ → Option ℚ) (coords px : List (ℚ × ℚ))
    (i : ℕ) : ℚ :=
  max 0 (min (l1At O px i - tPrevNAt O rounding coords i)
    (l2At O px i - tNextNAt O rounding coords px i))

def tMaxAt (O : EdOracle) (rounding : ℕ → Option ℚ) (coords px : List (ℚ × ℚ))
    (i : ℕ) : ℚ :=
  max 0 (min (49 / 100 * min (l1At O px i) (l2At O px i)) (tMaxAdjAt O rounding coords px i))

/-- The tangent length actually used: `t = max(1.0, min(t_goal, t_max))` —
with the 1-pixel floor. -/
def tUsedAt (O : EdOracle) (rounding : ℕ → Option ℚ) (coords px : List (ℚ × ℚ))
    (i : ℕ) : ℚ :=
  max 1 (min (tGoalAt O rounding px i) (tMaxAt O rounding coords px i))

def RAt (O : EdOracle) (rounding : ℕ → Option ℚ) (coords px : List (ℚ × ℚ)) (i : ℕ) : ℚ :=
  tUsedAt O rounding coords px i / tanHalfAt O px i

def T1At (O : EdOracle) (rounding : ℕ → Option ℚ) (coords px : List (ℚ × ℚ))
    (i : ℕ) : ℚ × ℚ :=
  padd (px.getD i (0, 0)) (pmul (v0At O px i) (-(tUsedAt O rounding coords px i)))

def T2At (O : EdOracle) (rounding : ℕ → Option ℚ) (coords px : List (ℚ × ℚ))
    (i : ℕ) : ℚ × ℚ :=
  padd (px.getD i (0, 0)) (pmul (v1At O px i) (tUsedAt O rounding coords px i))

/-- Arc center: average of the two per-tangent centers. -/
def centerAt (O : EdOracle) (rounding : ℕ → Option ℚ) (coords px : List (ℚ × ℚ))
    (i : ℕ) : ℚ × ℚ :=
  pmul (padd
    (padd (T1At O rounding coords px i)
      (pmul (leftN (v0At O px i)) (turnAt O px i * RAt O rounding coords px i)))
    (padd (T2At O rounding coords px i)
      (pmul (leftN (v1At O px i)) (turnAt O px i * RAt O rounding coords px i)))) (1 / 2)

def a1At (O : EdOracle) (rounding : ℕ → Option ℚ) (coords px : List (ℚ × ℚ)) (i : ℕ) : ℚ :=
  O.atan2 ((T1At O rounding coords px i).2 - (centerAt O rounding coords px i).2)
    ((T1At O rounding coords px i).1 - (centerAt O rounding coords px i).1)

def a2At (O : EdOracle) (rounding : ℕ → Option ℚ) (coords px : List (ℚ × ℚ)) (i : ℕ) : ℚ :=
  O.atan2 ((T2At O rounding coords px i).2 - (centerAt O rounding coords px i).2)
    ((T2At O rounding coords px i).1 - (centerAt O rounding coords px i).1)

/-- Closed form of the `while (end < start) end += 2π` (CCW) and
`while (end > start) end -= 2π` (CW) loops.  For a nonpositive `2π` the
JS loop would not terminate; the model then returns `a2` unchanged (the
loops are entered only when `a2` is on the wrong side of `a1`, and every
theorem using an angle bump holds for arbitrary oracles). -/
def bump (O : EdOracle) (turn a1 a2 : ℚ) : ℚ :=
  if 0 < turn then
    (if 0 < O.pi * 2 ∧ a2 < a1 then a2 + O.pi * 2 * ⌈(a1 - a2) / (O.pi * 2)⌉ else a2)
  else
    (if 0 < O.pi * 2 ∧ a1 < a2 then a2 - O.pi * 2 * ⌈(a2 - a1) / (O.pi * 2)⌉ else a2)

def endAt (O : EdOracle) (rounding : ℕ → Option ℚ) (coords px : List (ℚ × ℚ)) (i : ℕ) : ℚ :=
  bump O (turnAt O px i) (a1At O rounding coords px i) (a2At O rounding coords px i)

def sArcAt (O : EdOracle) (rounding : ℕ → Option ℚ) (coords px : List (ℚ × ℚ)) (i : ℕ) : ℚ :=
  |(endAt O rounding coords px i - a1At O rounding coords px i) * RAt O rounding coords px i|

/-- `steps = max(2, ceil(sArc / 8))` (8 px target chord length). -/
def stepsAt (O : EdOracle) (rounding : ℕ → Option ℚ) (coords px : List (ℚ × ℚ))
    (i : ℕ) : ℕ :=
  max 2 (Int.toNat ⌈sArcAt O rounding coords px i / 8⌉)

def arcPointAt (O : EdOracle) (rounding : ℕ → Option ℚ) (coords px : List (ℚ × ℚ))
    (i k : ℕ) : ℚ × ℚ :=
  ((centerAt O rounding coords px i).1 + RAt O rounding coords px i
      * O.cos (a1At O rounding coords px i
        + (endAt O rounding coords px i - a1At O rounding coords px i)
          * ((k : ℚ) / (stepsAt O rounding coords px i : ℚ))),
   (centerAt O rounding coords px i).2 + RAt O rounding coords px i
      * O.sin (a1At O rounding coords px i
        + (endAt O rounding coords px i - a1At O rounding coords px i)
          * ((k : ℚ) / (stepsAt O rounding coords px i : ℚ))))

/-- The points contributed by internal vertex `i`: the kept vertex when the
corner is (near-)straight or degenerate, else the tangent points `T1`,
`steps-1` interior arc points, and `T2`. -/
def vertexOut (O : EdOracle) (rounding : ℕ → Option ℚ) (coords px : List (ℚ × ℚ))
    (i : ℕ) : List (ℚ × ℚ) :=
  if alphaAt O px i < 1 / 1000 ∨ turnAt O px i = 0 then [O.unproj (px.getD i (0, 0))]
  else if tanHalfAt O px i ≤ 1 / 10 ^ 6 then [O.unproj (px.getD i (0, 0))]
  else
    [O.unproj (T1At O rounding coords px i)]
      ++ (List.range (stepsAt O rounding coords px i - 1)).map
          (fun (k : ℕ) => O.unproj (arcPointAt O rounding coords px i (k + 1)))
      ++ [O.unproj (T2At O rounding coords px i)]

/-- `smoothAxisCoords`: short polylines pass through untouched; otherwise
the projected first point, the per-internal-vertex output, and the
projected last point (all mapped back through `unproject`). -/
def smoothAxisCoords (O : EdOracle) (rounding : ℕ → Option ℚ)
    (coords : List (ℚ × ℚ)) : List (ℚ × ℚ) :=
  if coords.length ≤ 2 then coords
  else
    ((List.range ((coords.map O.proj).length - 2)).foldl
        (fun out (j : ℕ) => out ++ vertexOut O rounding coords (coords.map O.proj) (j + 1))
        [O.unproj ((coords.map O.proj).getD 0 (0, 0))])
      ++ [O.unproj ((coords.map O.proj).getD ((coords.map O.proj).length - 1) (0, 0))]

end XodrEditor

namespace XodrEditor

/-- Amended claim C3: at an internal vertex that is a genuine corner, a
rounding factor of 0 does NOT leave the vertex unmodified — the 1-pixel
floor in `t = max(1.0, min(t_goal, t_max))` forces a tangent length of 1,
and the vertex is replaced by at least 3 arc points. -/
theorem claim_C3_zero_rounding (O : EdOracle) (rounding : ℕ → Option ℚ)
    (coords px : List (ℚ × ℚ)) (i : ℕ)
    (hk : rounding i = some 0)
    (ha : ¬ (alphaAt O px i < 1 / 1000))
    (ht : turnAt O px i ≠ 0)
    (htan : ¬ (tanHalfAt O px i ≤ 1 / 10 ^ 6)) :
    tUsedAt O rounding coords px i = 1 ∧ 3 ≤ (vertexOut O rounding coords px i).length := by
  have hgoal : tGoalAt O rounding px i = 0 := by
    simp [tGoalAt, getRoundK, hk, clamp01]
  constructor
  · rw [tUsedAt, hgoal]
    have h1 : min (0 : ℚ) (tMaxAt O rounding coords px i) ≤ 1 :=
      le_trans (min_le_left _ _) (by norm_num)
    exact max_eq_left h1
  · rw [vertexOut, if_neg (by push_neg; exact ⟨not_lt.mp ha, ht⟩), if_neg htan]
    have hs : 2 ≤ stepsAt O rounding coords px i := Nat.le_max_left _ _
    simp only [List.length_append, List.length_map, List.length_range, List.length_singleton]
    omega

def c3O : EdOracle :=
  ⟨id, id, fun a b => |a| + |b|, fun _ => 3 / 2, fun _ => 1,
   fun y _ => if y < 0 then -3 / 2 else 0, fun _ => 0, fun _ => 0, 0⟩

def c3r : ℕ → Option ℚ := fun i => if i = 1 then some 0 else none

def c3coords : List (ℚ × ℚ) := [(0, 0), (10, 0), (10, 10)]

theorem c3_v0 : v0At c3O c3coords 1 = (1, 0) := by
  norm_num [v0At, c3O, c3coords, norm, plen, sub, List.getD_cons_zero, List.getD_cons_succ]

theorem c3_v1 : v1At c3O c3coords 1 = (0, 1) := by
  norm_num [v1At, c3O, c3coords, norm, plen, sub, List.getD_cons_zero, List.getD_cons_succ]

theorem c3_l1 : l1At c3O c3coords 1 = 10 := by
  norm_num [l1At, c3O, c3coords, plen, sub, List.getD_cons_zero, List.getD_cons_succ]

theorem c3_l2 : l2At c3O c3coords 1 = 10 := by
  norm_num [l2At, c3O, c3coords, plen, sub, List.getD_cons_zero, List.getD_cons_succ]

theorem c3_alpha : alphaAt c3O c3coords 1 = 3 / 2 := by
  rw [alphaAt, c3_v0, c3_v1]
  norm_num [c3O, clamp1, dot]

theorem c3_turn : turnAt c3O c3coords 1 = 1 := by
  rw [turnAt, c3_v0, c3_v1]
  norm_num [sign, crossZ]

theorem c3_tanHalf : tanHalfAt c3O c3coords 1 = 1 := by
  rw [tanHalfAt, c3_alpha]
  norm_num [c3O]

theorem c3_tGoal : tGoalAt c3O c3r c3coords 1 = 0 := by
  rw [tGoalAt]
  norm_num [getRoundK, c3r, clamp01]

theorem c3_tMax : tMaxAt c3O c3r c3coords c3coords 1 = 49 / 10 := by
  rw [tMaxAt, tMaxAdjAt, tPrevNAt, tNextNAt, c3_l1, c3_l2]
  norm_num [c3coords]

theorem c3_tUsed : tUsedAt c3O c3r c3coords c3coords 1 = 1 := by
  rw [tUsedAt, c3_tGoal, c3_tMax]
  norm_num

theorem c3_T1 : T1At c3O c3r c3coords c3coords 1 = (9, 0) := by
  rw [T1At, c3_v0, c3_tUsed]
  norm_num [padd, pmul, c3coords, List.getD_cons_zero, List.getD_cons_succ]

theorem c3_T2 : T2At c3O c3r c3coords c3coords 1 = (10, 1) := by
  rw [T2At, c3_v1, c3_tUsed]
  norm_num [padd, pmul, c3coords, List.getD_cons_zero, List.getD_cons_succ]

theorem c3_R : RAt c3O c3r c3coords c3coords 1 = 1 := by
  rw [RAt, c3_tUsed, c3_tanHalf]
  norm_num

theorem c3_center : centerAt c3O c3r c3coords c3coords 1 = (9, 1) := by
  rw [centerAt, c3_T1, c3_T2, c3_v0, c3_v1, c3_turn, c3_R]
  norm_num [padd, pmul, leftN]

theorem c3_a1 : a1At c3O c3r c3coords c3coords 1 = -(3 / 2) := by
  rw [a1At, c3_T1, c3_center]
  norm_num [c3O]

theorem c3_a2 : a2At c3O c3r c3coords c3coords 1 = 0 := by
  rw [a2At, c3_T2, c3_center]
  norm_num [c3O]

theorem c3_end : endAt c3O c3r c3coords c3coords 1 = 0 := by
  rw [endAt, c3_turn, c3_a1, c3_a2]
  norm_num [bump, c3O]

theorem c3_sArc : sArcAt c3O c3r c3coords c3coords 1 = 3 / 2 := by
  rw [sArcAt, c3_end, c3_a1, c3_R]
  norm_num

theorem c3_steps : stepsAt c3O c3r c3coords c3coords 1 = 2 := by
  rw [stepsAt, c3_sArc]
  rw [show ⌈(3 : ℚ) / 2 / 8⌉ = 1 by norm_num [Int.ceil_eq_iff]]
  rfl

theorem c3_arcPoint : arcPointAt c3O c3r c3coords c3coords 1 1 = (9, 1) := by
  rw [arcPointAt, c3_center, c3_R]
  norm_num [c3O]

theorem c3_vertexOut : vertexOut c3O c3r c3coords c3coords 1 = [(9, 0), (9, 1), (10, 1)] := by
  rw [vertexOut, if_neg (by rw [c3_alpha, c3_turn]; norm_num),
    if_neg (by rw [c3_tanHalf]; norm_num), c3_steps]
  rw [show (2 : ℕ) - 1 = 1 from rfl, show List.range 1 = [0] from rfl]
  simp only [zero_add, List.map_cons, List.map_nil, c3_arcPoint, c3_T1, c3_T2]
  simp [c3O]

theorem c3_map : c3coords.map c3O.proj = c3coords := by
  simp [c3O, c3coords]

/-- Claim C3 as stated is false: with rounding factor 0 at the right-angle
vertex (10,0), the smoothed polyline is not the input — the vertex is
replaced by a 1-pixel arc. -/
theorem claim_C3_counterexample :
    smoothAxisCoords c3O c3r c3coords = [(0, 0), (9, 0), (9, 1), (10, 1), (10, 10)] ∧
    smoothAxisCoords c3O c3r c3coords ≠ c3coords := by
  have h : smoothAxisCoords c3O c3r c3coords = [(0, 0), (9, 0), (9, 1), (10, 1), (10, 10)] := by
    rw [smoothAxisCoords, if_neg (by norm_num [c3coords])]
    simp only [c3_map]
    rw [show c3coords.length - 2 = 1 by norm_num [c3coords], show List.range 1 = [0] from rfl]
    simp only [zero_add, List.foldl_cons, List.foldl_nil, c3_vertexOut]
    norm_num [c3coords, c3O, List.getD_cons_zero, List.getD_cons_succ]
  refine ⟨h, ?_⟩
  rw [h]
  intro hEq
  have hlen := congrArg List.length hEq
  simp [c3coords] at hlen

/-- Witness for the amended C3 claim at the concrete right-angle corner. -/
theorem claim_C3_witness :
    c3r 1 = some 0 ∧
    ¬ (alphaAt c3O c3coords 1 < 1 / 1000) ∧
    turnAt c3O c3coords 1 ≠ 0 ∧
    ¬ (tanHalfAt c3O c3coords 1 ≤ 1 / 10 ^ 6) ∧
    (tUsedAt c3O c3r c3coords c3coords 1 = 1 ∧
      3 ≤ (vertexOut c3O c3r c3coords c3coords 1).length) := by
  have ha : ¬ (alphaAt c3O c3coords 1 < 1 / 1000) := by
    rw [c3_alpha]; norm_num
  have ht : turnAt c3O c3coords 1 ≠ 0 := by
    rw [c3_turn]; norm_num
  have htan : ¬ (tanHalfAt c3O c3coords 1 ≤ 1 / 10 ^ 6) := by
    rw [c3_tanHalf]; norm_num
  exact ⟨rfl, ha, ht, htan,
    claim_C3_zero_rounding c3O c3r c3coords c3coords 1 rfl ha ht htan⟩

end XodrEditor

namespace XodrEditor

/-- Amended claim C6: WHEN the 1-pixel floor is inactive at two consecutive
corner vertices (`min(t_goal, t_max) ≥ 1` at both) and the later vertex is a
genuine corner, the tangent lengths actually used sum to at most the length
of the shared edge, thanks to the neighbor-aware `t_max` clamp.  (With the
floor active the bound fails — see the counterexample.) -/
theorem claim_C6_adjacent_arcs (O : EdOracle) (rounding : ℕ → Option ℚ)
    (coords px : List (ℚ × ℚ)) (i : ℕ)
    (hpx : px = coords.map O.proj)
    (h1 : 1 ≤ min (tGoalAt O rounding px i) (tMaxAt O rounding coords px i))
    (h2 : 1 ≤ min (tGoalAt O rounding px (i + 1)) (tMaxAt O rounding coords px (i + 1)))
    (hg1 : 1 / 1000 < alphaAt O px (i + 1))
    (hg2 : 1 / 10 ^ 6 < tanHalfAt O px (i + 1))
    (hrange : i + 1 ≤ coords.length - 2) :
    tUsedAt O rounding coords px i + tUsedAt O rounding coords px (i + 1)
      ≤ l2At O px i := by
  have hmax : ∀ m : ℚ, 1 ≤ max 0 m → max 0 m = m := by
    intro m hm
    rcases le_total m 0 with h | h
    · rw [max_eq_left h] at hm
      linarith
    · exact max_eq_right h
  have h1max : 1 ≤ tMaxAt O rounding coords px i := le_trans h1 (min_le_right _ _)
  have h2max : 1 ≤ tMaxAt O rounding coords px (i + 1) := le_trans h2 (min_le_right _ _)
  have hu1 : tUsedAt O rounding coords px i
      = min (tGoalAt O rounding px i) (tMaxAt O rounding coords px i) := max_eq_right h1
  have hu2 : tUsedAt O rounding coords px (i + 1)
      = min (tGoalAt O rounding px (i + 1)) (tMaxAt O rounding coords px (i + 1)) :=
    max_eq_right h2
  have e1 : tMaxAt O rounding coords px i ≤ tMaxAdjAt O rounding coords px i := by
    have h := h1max
    rw [tMaxAt] at h
    rw [tMaxAt, hmax _ h]
    exact min_le_right _ _
  have e2 : 1 ≤ tMaxAdjAt O rounding coords px i := le_trans h1max e1
  have e3 : tMaxAdjAt O rounding coords px i
      ≤ l2At O px i - tNextNAt O rounding coords px i := by
    have h := e2
    rw [tMaxAdjAt] at h
    rw [tMaxAdjAt, hmax _ h]
    exact min_le_right _ _
  have hlen : px.length = coords.length := by
    rw [hpx, List.length_map]
  have e4 : tNextNAt O rounding coords px i = tangentLengthAt O rounding coords (i + 1) := by
    rw [tNextNAt, if_pos]
    rw [hlen]
    exact hrange
  have e5 : tangentLengthAt O rounding coords (i + 1)
      = max 0 (min (tGoalAt O rounding px (i + 1))
          (49 / 100 * min (l1At O px (i + 1)) (l2At O px (i + 1)))) := by
    rw [tangentLengthAt, if_neg (by omega), ← hpx,
      if_neg (not_not_intro hg1), if_neg (not_not_intro hg2)]
  have e6 : tUsedAt O rounding coords px (i + 1)
      ≤ tangentLengthAt O rounding coords (i + 1) := by
    rw [hu2, e5]
    have hb : tMaxAt O rounding coords px (i + 1)
        ≤ 49 / 100 * min (l1At O px (i + 1)) (l2At O px (i + 1)) := by
      have h := h2max
      rw [tMaxAt] at h
      rw [tMaxAt, hmax _ h]
      exact min_le_left _ _
    exact le_trans (min_le_min (le_refl _) hb) (le_max_right _ _)
  have e7 : tUsedAt O rounding coords px i
      ≤ l2At O px i - tNextNAt O rounding coords px i := by
    rw [hu1]
    exact le_trans (min_le_right _ _) (le_trans e1 e3)
  have e8 : tUsedAt O rounding coords px (i + 1) ≤ tNextNAt O rounding coords px i := by
    rw [e4]
    exact e6
  linarith

def c6r : ℕ → Option ℚ := fun _ => none

/-- Counterexample polyline: right angles at (0,0) and (1,0), shared edge of
length 1, long outer edges. -/
def c6cx : List (ℚ × ℚ) := [(0, -10), (0, 0), (1, 0), (1, 10)]

set_option maxRecDepth 4000 in
/-- Claim C6 as stated is false: with all rounding factors defaulting to 1,
the 1-pixel floor forces tangent length 1 at BOTH corners of a shared edge
of length 1 — the used tangent lengths sum to 2 > 1 (the inserted arcs
overlap) and each exceeds its own `t_max = 0.49`. -/
theorem claim_C6_counterexample :
    tUsedAt c3O c6r c6cx c6cx 1 = 1 ∧
    tUsedAt c3O c6r c6cx c6cx 2 = 1 ∧
    l2At c3O c6cx 1 = 1 ∧
    tMaxAt c3O c6r c6cx c6cx 1 = 49 / 100 ∧
    ¬ (tUsedAt c3O c6r c6cx c6cx 1 + tUsedAt c3O c6r c6cx c6cx 2 ≤ l2At c3O c6cx 1) ∧
    ¬ (tUsedAt c3O c6r c6cx c6cx 1 ≤ tMaxAt c3O c6r c6cx c6cx 1) := by
  have h1 : tUsedAt c3O c6r c6cx c6cx 1 = 1 := by
    norm_num [tUsedAt, tGoalAt, tMaxAt, tMaxAdjAt, tPrevNAt, tNextNAt, tangentLengthAt,
      alphaAt, tanHalfAt, getRoundK, clamp01, clamp1, v0At, v1At, l1At, l2At, norm, plen,
      sub, dot, c3O, c6r, c6cx, List.getD_cons_zero, List.getD_cons_succ]
  have h2 : tUsedAt c3O c6r c6cx c6cx 2 = 1 := by
    norm_num [tUsedAt, tGoalAt, tMaxAt, tMaxAdjAt, tPrevNAt, tNextNAt, tangentLengthAt,
      alphaAt, tanHalfAt, getRoundK, clamp01, clamp1, v0At, v1At, l1At, l2At, norm, plen,
      sub, dot, c3O, c6r, c6cx, List.getD_cons_zero, List.getD_cons_succ]
  have h3 : l2At c3O c6cx 1 = 1 := by
    norm_num [l2At, plen, sub, c3O, c6cx, List.getD_cons_zero, List.getD_cons_succ]
  have h4 : tMaxAt c3O c6r c6cx c6cx 1 = 49 / 100 := by
    norm_num [tMaxAt, tMaxAdjAt, tPrevNAt, tNextNAt, tangentLengthAt, tGoalAt,
      alphaAt, tanHalfAt, getRoundK, clamp01, clamp1, v0At, v1At, l1At, l2At, norm, plen,
      sub, dot, c3O, c6r, c6cx, List.getD_cons_zero, List.getD_cons_succ]
  refine ⟨h1, h2, h3, h4, ?_, ?_⟩
  · rw [h1, h2, h3]
    norm_num
  · rw [h1, h4]
    norm_num

/-- Witness polyline: the counterexample scaled by 10, so the floor is
inactive. -/
def c6w : List (ℚ × ℚ) := [(0, -100), (0, 0), (10, 0), (10, 100)]

set_option maxRecDepth 4000 in
/-- Witness for the amended C6 claim at the scaled concrete polyline. -/
theorem claim_C6_witness :
    c6w = c6w.map c3O.proj ∧
    1 ≤ min (tGoalAt c3O c6r c6w 1) (tMaxAt c3O c6r c6w c6w 1) ∧
    1 ≤ min (tGoalAt c3O c6r c6w 2) (tMaxAt c3O c6r c6w c6w 2) ∧
    1 / 1000 < alphaAt c3O c6w 2 ∧
    1 / 10 ^ 6 < tanHalfAt c3O c6w 2 ∧
    1 + 1 ≤ c6w.length - 2 ∧
    tUsedAt c3O c6r c6w c6w 1 + tUsedAt c3O c6r c6w c6w 2 ≤ l2At c3O c6w 1 := by
  have hpx : c6w = c6w.map c3O.proj := by
    simp [c3O, c6w]
  have h1 : 1 ≤ min (tGoalAt c3O c6r c6w 1) (tMaxAt c3O c6r c6w c6w 1) := by
    norm_num [tUsedAt, tGoalAt, tMaxAt, tMaxAdjAt, tPrevNAt, tNextNAt, tangentLengthAt,
      alphaAt, tanHalfAt, getRoundK, clamp01, clamp1, v0At, v1At, l1At, l2At, norm, plen,
      sub, dot, c3O, c6r, c6w, List.getD_cons_zero, List.getD_cons_succ]
  have h2 : 1 ≤ min (tGoalAt c3O c6r c6w 2) (tMaxAt c3O c6r c6w c6w 2) := by
    norm_num [tUsedAt, tGoalAt, tMaxAt, tMaxAdjAt, tPrevNAt, tNextNAt, tangentLengthAt,
      alphaAt, tanHalfAt, getRoundK, clamp01, clamp1, v0At, v1At, l1At, l2At, norm, plen,
      sub, dot, c3O, c6r, c6w, List.getD_cons_zero, List.getD_cons_succ]
  have hg1 : 1 / 1000 < alphaAt c3O c6w 2 := by
    norm_num [alphaAt, clamp1, v0At, v1At, norm, plen, sub, dot, c3O, c6w,
      List.getD_cons_zero, List.getD_cons_succ]
  have hg2 : 1 / 10 ^ 6 < tanHalfAt c3O c6w 2 := by
    norm_num [tanHalfAt, alphaAt, clamp1, v0At, v1At, norm, plen, sub, dot, c3O, c6w,
      List.getD_cons_zero, List.getD_cons_succ]
  have hrange : 1 + 1 ≤ c6w.length - 2 := by
    norm_num [c6w]
  exact ⟨hpx, h1, h2, hg1, hg2, hrange,
    claim_C6_adjacent_arcs c3O c6r c6w c6w 1 hpx h1 h2 hg1 hg2 hrange⟩

end XodrEditor

namespace XodrEditor

theorem foldl_append_init {α β : Type} (g : β → List α) (l : List β) (acc : List α) :
    l.foldl (fun a j => a ++ g j) acc = acc ++ (l.map g).flatten := by
  induction l generalizing acc with
  | nil => simp
  | cons x t ih => simp [List.foldl, ih]

theorem getD_map_of_lt {α β : Type} (f : α → β) (l : List α) (n : ℕ) (h : n < l.length)
    (d : β) (d' : α) : (l.map f).getD n d = f (l.getD n d') := by
  induction l generalizing n with
  | nil => simp at h
  | cons a t ih =>
    cases n with
    | zero => rfl
    | succ m =>
      rw [List.map_cons, List.getD_cons_succ, List.getD_cons_succ]
      exact ih m (by simpa using h)

theorem head?_eq_getD {α : Type} (l : List α) (d : α) (h : l ≠ []) :
    l.head? = some (l.getD 0 d) := by
  cases l with
  | nil => exact absurd rfl h
  | cons a t => rfl

theorem getLast?_eq_getD {α : Type} (l : List α) (d : α) (h : l ≠ []) :
    l.getLast? = some (l.getD (l.length - 1) d) := by
  induction l with
  | nil => exact absurd rfl h
  | cons a t ih =>
    cases t with
    | nil => rfl
    | cons b t' =>
      have h2 : (a :: b :: t').getD ((a :: b :: t').length - 1) d
          = (b :: t').getD ((b :: t').length - 1) d := by
        have h3 : (a :: b :: t').length - 1 = ((b :: t').length - 1) + 1 := by
          simp
        rw [h3, List.getD_cons_succ]
      rw [List.getLast?_cons_cons, ih (List.cons_ne_nil _ _), h2]

theorem head?_singleton_append_append {α : Type} (a : α) (X Y : List α) :
    (([a] ++ X) ++ Y).head? = some a := rfl

/-- Claim C10: corner rounding never moves the axis endpoints.  Short
polylines are returned untouched; otherwise the first and last output
points are the projection round-trips of the input endpoints, so whenever
`unproject ∘ project` is the identity on the input vertices, the endpoints
are preserved exactly. -/
theorem claim_C10_endpoints (O : EdOracle) (rounding : ℕ → Option ℚ)
    (coords : List (ℚ × ℚ)) (h2 : 2 ≤ coords.length)
    (hrt : ∀ p ∈ coords, O.unproj (O.proj p) = p) :
    (smoothAxisCoords O rounding coords).head? = coords.head? ∧
    (smoothAxisCoords O rounding coords).getLast? = coords.getLast? := by
  have hne : coords ≠ [] := by
    intro h0
    rw [h0] at h2
    simp at h2
  by_cases hle : coords.length ≤ 2
  · rw [smoothAxisCoords, if_pos hle]
    exact ⟨rfl, rfl⟩
  · rw [smoothAxisCoords, if_neg hle]
    push_neg at hle
    have hm0 : coords.getD 0 (0, 0) ∈ coords := by
      cases coords with
      | nil => exact absurd rfl hne
      | cons a t => exact List.mem_cons_self a t
    have hlt : coords.length - 1 < coords.length := by omega
    have hml : coords.getD (coords.length - 1) (0, 0) ∈ coords := by
      have h1 := getLast?_eq_getD coords (0, 0) hne
      have h2' := List.getLast?_eq_getLast coords hne
      rw [h2'] at h1
      rw [← Option.some_inj.mp h1]
      exact List.getLast_mem hne
    have hu0 : O.unproj ((coords.map O.proj).getD 0 (0, 0)) = coords.getD 0 (0, 0) := by
      rw [getD_map_of_lt O.proj coords 0 (by omega) (0, 0) (0, 0)]
      exact hrt _ hm0
    have hul : O.unproj ((coords.map O.proj).getD ((coords.map O.proj).length - 1) (0, 0))
        = coords.getD (coords.length - 1) (0, 0) := by
      rw [List.length_map,
        getD_map_of_lt O.proj coords (coords.length - 1) hlt (0, 0) (0, 0)]
      exact hrt _ hml
    constructor
    · rw [foldl_append_init, head?_singleton_append_append, hu0,
        head?_eq_getD coords (0, 0) hne]
    · rw [List.getLast?_concat, hul, getLast?_eq_getD coords (0, 0) hne]

def c10coords : List (ℚ × ℚ) := [(0, 0), (5, 0), (5, 7)]

/-- Witness for claim C10 at a concrete 3-point polyline with the identity
projection. -/
theorem claim_C10_witness :
    2 ≤ c10coords.length ∧
    (∀ p ∈ c10coords, c3O.unproj (c3O.proj p) = p) ∧
    ((smoothAxisCoords c3O c6r c10coords).head? = c10coords.head? ∧
     (smoothAxisCoords c3O c6r c10coords).getLast? = c10coords.getLast?) := by
  have ha : 2 ≤ c10coords.length := by
    norm_num [c10coords]
  have hb : ∀ p ∈ c10coords, c3O.unproj (c3O.proj p) = p := by
    intro p _
    rfl
  exact ⟨ha, hb, claim_C10_endpoints c3O c6r c10coords ha hb⟩

end XodrEditor

namespace XodrEditor

/-! Round-trip embedding: `__ed_buildXodr` serializes `axesBlob` (one
record per editable axis: id, plain coordinate pairs, and the axis's
rounding object or `{}`) into the `<userData><editorAxes>` payload, and
`editorIngestEditorAxes` clears the state and rebuilds `roadsById` /
`roundingByAxis` from such records.  `Map`s are insertion-ordered
association lists; `Map.set` updates in place or appends. -/

structure EditorState where
  axes : List (String × List (ℚ × ℚ))
  rounding : List (String × List (ℕ × ℚ))

structure AxisRec where
  id : String
  coords : List (ℚ × ℚ)
  rounding : List (ℕ × ℚ)

def mapSet {β : Type} : List (String × β) → String → β → List (String × β)
  | [], k, v => [(k, v)]
  | (k', v') :: rest, k, v =>
    if k' = k then (k, v) :: rest else (k', v') :: mapSet rest k v

def mapGet {β : Type} : List (String × β) → String → Option β
  | [], _ => none
  | (k', v') :: rest, k => if k' = k then some v' else mapGet rest k

/-- The `axesBlob` built by `__ed_buildXodr`: per axis, its id, its
coordinate pairs, and its rounding object (or `{}` when absent). -/
def axesBlobOf (st : EditorState) : List AxisRec :=
  st.axes.map (fun a => ⟨a.1, a.2.map (fun c => (c.1, c.2)), (mapGet st.rounding a.1).getD []⟩)

/-- One iteration of the ingest loop: a record with a falsy (empty) id gets
a fresh generated id; coords and rounding are stored under the id. -/
def ingestStep (fresh : ℕ → String) (acc : EditorState × ℕ) (r : AxisRec) :
    EditorState × ℕ :=
  if r.id = "" then
    (⟨mapSet acc.1.axes (fresh acc.2) (r.coords.map (fun c => (c.1, c.2))),
      mapSet acc.1.rounding (fresh acc.2) r.rounding⟩, acc.2 + 1)
  else
    (⟨mapSet acc.1.axes r.id (r.coords.map (fun c => (c.1, c.2))),
      mapSet acc.1.rounding r.id r.rounding⟩, acc.2)

/-- `editorIngestEditorAxes`: clears the state, then folds the records in
order (every record whose coords is an array — always the case here). -/
def editorIngestEditorAxes (fresh : ℕ → String) (data : List AxisRec) : EditorState :=
  (data.foldl (ingestStep fresh) (⟨[], []⟩, 0)).1

theorem mapSet_of_not_mem {β : Type} (l : List (String × β)) (k : String) (v : β)
    (h : k ∉ l.map Prod.fst) : mapSet l k v = l ++ [(k, v)] := by
  induction l with
  | nil => rfl
  | cons b t ih =>
    rw [List.map_cons] at h
    have hb : b.1 ≠ k := fun he => h (he ▸ List.mem_cons_self _ _)
    cases b with
    | mk k' v' =>
      rw [mapSet, if_neg hb, ih (fun hm => h (List.mem_cons_of_mem _ hm)), List.cons_append]

theorem ingest_go (fresh : ℕ → String) (data : List AxisRec) (st : EditorState) (n : ℕ)
    (hne : ∀ r ∈ data, r.id ≠ "")
    (hax : ∀ r ∈ data, r.id ∉ st.axes.map Prod.fst)
    (hrd : ∀ r ∈ data, r.id ∉ st.rounding.map Prod.fst)
    (hnd : (data.map AxisRec.id).Nodup) :
    data.foldl (ingestStep fresh) (st, n)
      = (⟨st.axes ++ data.map (fun r => (r.id, r.coords.map (fun c => (c.1, c.2)))),
          st.rounding ++ data.map (fun r => (r.id, r.rounding))⟩, n) := by
  induction data generalizing st n with
  | nil =>
    simp [List.foldl]
  | cons r t ih =>
    rw [List.map_cons] at hnd
    have hr0 : r.id ≠ "" := hne r (List.mem_cons_self _ _)
    have hax0 : r.id ∉ st.axes.map Prod.fst := hax r (List.mem_cons_self _ _)
    have hrd0 : r.id ∉ st.rounding.map Prod.fst := hrd r (List.mem_cons_self _ _)
    rw [List.foldl_cons]
    rw [show ingestStep fresh (st, n) r
        = (⟨mapSet st.axes r.id (r.coords.map (fun c => (c.1, c.2))),
            mapSet st.rounding r.id r.rounding⟩, n) from by rw [ingestStep, if_neg hr0]]
    rw [mapSet_of_not_mem _ _ _ hax0, mapSet_of_not_mem _ _ _ hrd0]
    rw [ih ⟨st.axes ++ [(r.id, r.coords.map (fun c => (c.1, c.2)))],
          st.rounding ++ [(r.id, r.rounding)]⟩ n
        (fun r' hr' => hne r' (List.mem_cons_of_mem _ hr'))
        (fun r' hr' => by
          simp only [List.map_append, List.map_cons, List.map_nil, List.mem_append,
            List.mem_singleton]
          push_neg
          refine ⟨fun hm => hax r' (List.mem_cons_of_mem _ hr') hm, ?_⟩
          intro he
          exact (List.nodup_cons.mp hnd).1 (he ▸ List.mem_map.mpr ⟨r', hr', rfl⟩)
        )
        (fun r' hr' => by
          simp only [List.map_append, List.map_cons, List.map_nil, List.mem_append,
            List.mem_singleton]
          push_neg
          refine ⟨fun hm => hrd r' (List.mem_cons_of_mem _ hr') hm, ?_⟩
          intro he
          exact (List.nodup_cons.mp hnd).1 (he ▸ List.mem_map.mpr ⟨r', hr', rfl⟩)
        )
        (List.nodup_cons.mp hnd).2]
    simp [List.append_assoc]

theorem mapGet_of_map {α γ : Type} (key : α → String) (g : α → γ) (l : List α) (a : α)
    (ha : a ∈ l) (hnd : (l.map key).Nodup) :
    mapGet (l.map (fun x => (key x, g x))) (key a) = some (g a) := by
  induction l with
  | nil => simp at ha
  | cons b t ih =>
    rw [List.map_cons] at hnd
    rw [List.map_cons, mapGet]
    by_cases hb : key b = key a
    · rw [if_pos hb]
      rcases List.mem_cons.mp ha with rfl | hat
      · rfl
      · exfalso
        exact (List.nodup_cons.mp hnd).1 (hb ▸ List.mem_map.mpr ⟨a, hat, rfl⟩)
    · rw [if_neg hb]
      rcases List.mem_cons.mp ha with rfl | hat
      · exact absurd rfl hb
      · exact ih hat (List.nodup_cons.mp hnd).2

theorem map_pair_eta (l : List (ℚ × ℚ)) : l.map (fun c => (c.1, c.2)) = l := by
  induction l with
  | nil => rfl
  | cons c t ih => rw [List.map_cons, ih]

theorem map_axis_eta (l : List (String × List (ℚ × ℚ))) :
    l.map (fun a => (a.1, a.2)) = l := by
  induction l with
  | nil => rfl
  | cons c t ih => rw [List.map_cons, ih]

theorem blob_axes_eq (st : EditorState) :
    (axesBlobOf st).map (fun r => ((r.id : String), r.coords.map (fun c => (c.1, c.2))))
      = st.axes := by
  rw [axesBlobOf, List.map_map]
  refine Eq.trans ?_ (map_axis_eta st.axes)
  apply List.map_congr_left
  intro a _
  show ((a.1 : String), (a.2.map (fun c => (c.1, c.2))).map (fun c => (c.1, c.2)))
    = (a.1, a.2)
  rw [map_pair_eta, map_pair_eta]

theorem blob_rounding_eq (st : EditorState) :
    (axesBlobOf st).map (fun r => ((r.id : String), r.rounding))
      = st.axes.map (fun x => ((x.1 : String), (mapGet st.rounding x.1).getD [])) := by
  rw [axesBlobOf, List.map_map]
  apply List.map_congr_left
  intro a _
  rfl

/-- Claim C7: export followed by ingest restores every axis's vertex list
and rounding table exactly, provided the pre-export state satisfies the
editor's invariants: axis ids are non-empty (else ingest renames them),
pairwise distinct, and every axis has a rounding entry (else ingest adds an
empty `{}` entry that was not there before). -/
theorem claim_C7_roundtrip (fresh : ℕ → String) (st : EditorState)
    (hne : ∀ a ∈ st.axes, a.1 ≠ "")
    (hnd : (st.axes.map Prod.fst).Nodup)
    (hr : ∀ a ∈ st.axes, (mapGet st.rounding a.1).isSome = true) :
    (editorIngestEditorAxes fresh (axesBlobOf st)).axes = st.axes ∧
    ∀ a ∈ st.axes,
      mapGet (editorIngestEditorAxes fresh (axesBlobOf st)).rounding a.1
        = mapGet st.rounding a.1 := by
  have hids : (axesBlobOf st).map AxisRec.id = st.axes.map Prod.fst := by
    rw [axesBlobOf, List.map_map]
    rfl
  have hgo := ingest_go fresh (axesBlobOf st) ⟨[], []⟩ 0
    (by
      intro r hrr
      rw [axesBlobOf] at hrr
      rcases List.mem_map.mp hrr with ⟨a, ha, rfl⟩
      exact hne a ha)
    (by intro r _; simp)
    (by intro r _; simp)
    (by rw [hids]; exact hnd)
  constructor
  · rw [editorIngestEditorAxes, hgo]
    exact blob_axes_eq st
  · intro a ha
    rw [editorIngestEditorAxes, hgo]
    show mapGet ([] ++ (axesBlobOf st).map (fun r => ((r.id : String), r.rounding))) a.1
      = mapGet st.rounding a.1
    rw [List.nil_append, blob_rounding_eq st]
    rw [mapGet_of_map Prod.fst (fun x => (mapGet st.rounding x.1).getD []) st.axes a ha hnd]
    rcases Option.isSome_iff_exists.mp (hr a ha) with ⟨t, ht⟩
    rw [ht]
    rfl

def c7fresh : ℕ → String := fun _ => "fresh"

def c7st : EditorState := ⟨[("a", [(1, 2), (3, 4)])], [("a", [(1, 1 / 2)])]⟩

/-- Witness for claim C7 at a concrete one-axis state. -/
theorem claim_C7_witness :
    (∀ a ∈ c7st.axes, a.1 ≠ "") ∧
    (c7st.axes.map Prod.fst).Nodup ∧
    (∀ a ∈ c7st.axes, (mapGet c7st.rounding a.1).isSome = true) ∧
    ((editorIngestEditorAxes c7fresh (axesBlobOf c7st)).axes = c7st.axes ∧
     ∀ a ∈ c7st.axes,
       mapGet (editorIngestEditorAxes c7fresh (axesBlobOf c7st)).rounding a.1
         = mapGet c7st.rounding a.1) := by
  have h1 : ∀ a ∈ c7st.axes, a.1 ≠ "" := by
    intro a ha
    rcases List.mem_singleton.mp ha with rfl
    simp [c7st]
  have h2 : (c7st.axes.map Prod.fst).Nodup := by
    simp [c7st]
  have h3 : ∀ a ∈ c7st.axes, (mapGet c7st.rounding a.1).isSome = true := by
    intro a ha
    rcases List.mem_singleton.mp ha with rfl
    simp [c7st, mapGet]
  exact ⟨h1, h2, h3, claim_C7_roundtrip c7fresh c7st h1 h2 h3⟩

end XodrEditor
